import Mathlib

/-!
Verification of the multi-page OCR extraction pipeline (`src/api/main.py`)
against its natural-language specification.

The development shallowly embeds the pipeline's pure logic:
  * a JSON value type and a model of Python's `json.loads` / `json.dumps`
    (the stdlib boundary used by the code),
  * `extract_json_from_response` (the layered response parser),
  * the Map Stage of `ocr_offer_letter_endpoint` (gather, per-page parse,
    null-field cleaning, emptiness check),
  * the incremental Reduce/Merge stage (model-assisted pairwise merge),
  * the required-field defaulting step and the schema validator.

Model calls (`send_bearer_token_request`) are network effects; they are
embedded as oracles: a list of per-page response outcomes for the Map Stage
and a stream of merge responses for the Reduce Stage.
-/

namespace OcrPipeline

/-- A JSON value as produced by Python's `json` module: null, booleans,
strings, numbers, arrays, objects.  Numbers keep their literal decimal
spelling as a mantissa and a count of fractional digits, so that an `int`
(`exp = 0`) is distinguished from a `float` (`exp > 0`) the way Python
distinguishes `1` from `1.0`. -/
inductive Json where
  | null
  | bool (b : Bool)
  | str (s : String)
  | num (man : Int) (exp : Nat)
  | arr (elems : List Json)
  | obj (fields : List (String × Json))

/-! ## Character utilities -/

/-- The left brace character, written by code point to keep string scanning simple. -/
def lbrace : Char := Char.ofNat 123

/-- The right brace character. -/
def rbrace : Char := Char.ofNat 125

/-- The backtick character used by markdown code fences. -/
def tick : Char := Char.ofNat 96

/-- JSON insignificant whitespace, exactly the four characters Python's
`json.loads` skips between tokens. -/
def isJsonWs (c : Char) : Bool := c == ' ' || c == '\t' || c == '\n' || c == '\r'

/-- Whitespace as Python's `str.strip` and the regex class `\s` see it
(modelled on the ASCII range). -/
def isPyWs (c : Char) : Bool :=
  c == ' ' || c == '\t' || c == '\n' || c == '\r' || c.toNat == 11 || c.toNat == 12

/-- Drop leading JSON whitespace. -/
def skipWs (cs : List Char) : List Char := cs.dropWhile isJsonWs

/-- Python `str.strip()`: remove leading and trailing whitespace. -/
def stripChars (cs : List Char) : List Char :=
  ((cs.dropWhile isPyWs).reverse.dropWhile isPyWs).reverse

/-- Decimal digit test by code point. -/
def isDigitCh (c : Char) : Bool := 48 ≤ c.toNat && c.toNat ≤ 57

/-- The numeric value of a decimal digit character. -/
def charDigitVal (c : Char) : Nat := c.toNat - 48

/-- The character for a decimal digit value. -/
def digitChar : Nat → Char
  | 0 => '0' | 1 => '1' | 2 => '2' | 3 => '3' | 4 => '4'
  | 5 => '5' | 6 => '6' | 7 => '7' | 8 => '8' | _ => '9'

/-- The lowercase hexadecimal digit character for a value below 16. -/
def hexDigitChar : Nat → Char
  | 0 => '0' | 1 => '1' | 2 => '2' | 3 => '3' | 4 => '4'
  | 5 => '5' | 6 => '6' | 7 => '7' | 8 => '8' | 9 => '9'
  | 10 => 'a' | 11 => 'b' | 12 => 'c' | 13 => 'd' | 14 => 'e' | _ => 'f'

/-- The value of a hexadecimal digit character, if it is one. -/
def hexVal (c : Char) : Option Nat :=
  if 48 ≤ c.toNat && c.toNat ≤ 57 then some (c.toNat - 48)
  else if 97 ≤ c.toNat && c.toNat ≤ 102 then some (c.toNat - 87)
  else if 65 ≤ c.toNat && c.toNat ≤ 70 then some (c.toNat - 55)
  else none

/-- Decimal digit characters of a natural number, least significant first;
the fuel argument keeps the recursion structural so that values compute by
kernel reduction. -/
def digitCharsAux : Nat → Nat → List Char
  | 0, _ => []
  | fuel + 1, n => if n = 0 then [] else digitChar (n % 10) :: digitCharsAux fuel (n / 10)

/-- Decimal digit characters of a natural number, most significant first. -/
def digitChars (n : Nat) : List Char :=
  if n = 0 then ['0'] else (digitCharsAux n n).reverse

/-- The natural number denoted by a list of decimal digit characters,
most significant first. -/
def natOfDigitChars (ds : List Char) : Nat :=
  Nat.ofDigits 10 ((ds.map charDigitVal).reverse)

/-! ## Serialization, modelling Python's `json.dumps` with its default
separators `", "` and `": "`.  Control characters are escaped (the five
mnemonic escapes, then `\u00XX`); other characters are emitted as
themselves. -/

/-- How one character appears inside a serialized JSON string literal. -/
def escapeChar (c : Char) : List Char :=
  if c = '"' then ['\\', '"']
  else if c = '\\' then ['\\', '\\']
  else if c = '\n' then ['\\', 'n']
  else if c = '\t' then ['\\', 't']
  else if c = '\r' then ['\\', 'r']
  else if c.toNat = 8 then ['\\', 'b']
  else if c.toNat = 12 then ['\\', 'f']
  else if c.toNat < 32 then
    ['\\', 'u', '0', '0', hexDigitChar (c.toNat / 16), hexDigitChar (c.toNat % 16)]
  else [c]

/-- Escape every character of a string body. -/
def escapeList (cs : List Char) : List Char :=
  cs.foldr (fun c acc => escapeChar c ++ acc) []

/-- A serialized JSON string literal. -/
def strLitChars (s : String) : List Char := '"' :: (escapeList s.toList ++ ['"'])

/-- A serialized integer, optional sign then decimal digits. -/
def intChars (m : Int) : List Char :=
  (if m < 0 then ['-'] else []) ++ digitChars m.natAbs

/-- A serialized JSON number: the mantissa digits with a decimal point
inserted `e` places from the right (padding with zeros as needed), so
`num 15 1` prints as `1.5` and `num 0 1` as `0.0`. -/
def numChars (m : Int) (e : Nat) : List Char :=
  if e = 0 then intChars m
  else
    let ds := digitChars m.natAbs
    let padded := List.replicate (e + 1 - ds.length) '0' ++ ds
    (if m < 0 then ['-'] else []) ++
      (padded.take (padded.length - e) ++ '.' :: padded.drop (padded.length - e))

mutual

/-- Serialize a JSON value, as Python's `json.dumps` does with default options. -/
def dumpsChars : Json → List Char
  | .null => "null".toList
  | .bool true => "true".toList
  | .bool false => "false".toList
  | .str s => strLitChars s
  | .num m e => numChars m e
  | .arr es => '[' :: (dumpsElems es ++ [']'])
  | .obj fs => lbrace :: (dumpsFields fs ++ [rbrace])

/-- Serialize array elements, separated by `", "`. -/
def dumpsElems : List Json → List Char
  | [] => []
  | [x] => dumpsChars x
  | x :: y :: xs => dumpsChars x ++ ',' :: ' ' :: dumpsElems (y :: xs)

/-- Serialize object members `"key": value`, separated by `", "`. -/
def dumpsFields : List (String × Json) → List Char
  | [] => []
  | [(k, v)] => strLitChars k ++ ':' :: ' ' :: dumpsChars v
  | (k, v) :: g :: fs =>
      strLitChars k ++ ':' :: ' ' :: dumpsChars v ++ ',' :: ' ' :: dumpsFields (g :: fs)

end

/-- Serialize a JSON value to a string (`json.dumps`). -/
def dumps (j : Json) : String := String.mk (dumpsChars j)

/-! ## Parsing, modelling Python's `json.loads`.

The grammar follows RFC 8259 as Python enforces it: strict literals,
no leading zeros, at least one digit after a decimal point, raw control
characters rejected inside strings.  Exponent notation and the nonstandard
`NaN`/`Infinity` extensions are not modelled; no input exercised here uses
them.  Object members are kept in order of appearance; Python's `dict`
would collapse a repeated key (last occurrence wins), a case that no input
exercised here produces. -/

/-- Parse the body of a string literal after the opening quote, returning
the decoded characters and the input after the closing quote. -/
def parseStrBody : List Char → Option (List Char × List Char)
  | [] => none
  | c :: rest =>
    if c = '"' then some ([], rest)
    else if c = '\\' then
      match rest with
      | [] => none
      | e :: rest2 =>
        if e = '"' then (parseStrBody rest2).map (fun p => ('"' :: p.1, p.2))
        else if e = '\\' then (parseStrBody rest2).map (fun p => ('\\' :: p.1, p.2))
        else if e = '/' then (parseStrBody rest2).map (fun p => ('/' :: p.1, p.2))
        else if e = 'n' then (parseStrBody rest2).map (fun p => ('\n' :: p.1, p.2))
        else if e = 't' then (parseStrBody rest2).map (fun p => ('\t' :: p.1, p.2))
        else if e = 'r' then (parseStrBody rest2).map (fun p => ('\r' :: p.1, p.2))
        else if e = 'b' then (parseStrBody rest2).map (fun p => (Char.ofNat 8 :: p.1, p.2))
        else if e = 'f' then (parseStrBody rest2).map (fun p => (Char.ofNat 12 :: p.1, p.2))
        else if e = 'u' then
          match rest2 with
          | h1 :: h2 :: h3 :: h4 :: rest3 =>
            match hexVal h1, hexVal h2, hexVal h3, hexVal h4 with
            | some a, some b, some x, some y =>
              (parseStrBody rest3).map
                (fun p => (Char.ofNat (((a * 16 + b) * 16 + x) * 16 + y) :: p.1, p.2))
            | _, _, _, _ => none
          | _ => none
        else none
    else if c.toNat < 32 then none
    else (parseStrBody rest).map (fun p => (c :: p.1, p.2))

/-- Apply the parsed sign to a magnitude. -/
def applySign (neg : Bool) (n : Nat) : Int := if neg then -(n : Int) else (n : Int)

/-- Parse a JSON number after the optional sign has been consumed. -/
def parseNumCore (neg : Bool) (cs : List Char) : Option (Json × List Char) :=
  let ip := cs.takeWhile isDigitCh
  let rest1 := cs.dropWhile isDigitCh
  if ip.isEmpty then none
  else if 1 < ip.length ∧ ip.headD 'x' = '0' then none
  else
    match rest1 with
    | c :: r =>
      if c = '.' then
        let fp := r.takeWhile isDigitCh
        let rest2 := r.dropWhile isDigitCh
        if fp.isEmpty then none
        else some (.num (applySign neg (natOfDigitChars (ip ++ fp))) fp.length, rest2)
      else some (.num (applySign neg (natOfDigitChars ip)) 0, rest1)
    | [] => some (.num (applySign neg (natOfDigitChars ip)) 0, [])

mutual

/-- Parse one JSON value, skipping leading whitespace.  `fuel` bounds the
nesting-driven recursion; it only needs to exceed the length of the text
being consumed. -/
def parseVal : Nat → List Char → Option (Json × List Char)
  | 0, _ => none
  | f + 1, cs =>
    match skipWs cs with
    | [] => none
    | c :: rest =>
      if c = '"' then (parseStrBody rest).map (fun p => (.str (String.mk p.1), p.2))
      else if c = '-' then parseNumCore true rest
      else if isDigitCh c then parseNumCore false (c :: rest)
      else if c = 'n' then
        match rest with
        | 'u' :: 'l' :: 'l' :: r => some (.null, r)
        | _ => none
      else if c = 't' then
        match rest with
        | 'r' :: 'u' :: 'e' :: r => some (.bool true, r)
        | _ => none
      else if c = 'f' then
        match rest with
        | 'a' :: 'l' :: 's' :: 'e' :: r => some (.bool false, r)
        | _ => none
      else if c = '[' then
        match skipWs rest with
        | [] => none
        | d :: r2 =>
          if d = ']' then some (.arr [], r2)
          else (parseElems f (d :: r2)).map (fun p => (.arr p.1, p.2))
      else if c = lbrace then
        match skipWs rest with
        | [] => none
        | d :: r2 =>
          if d = rbrace then some (.obj [], r2)
          else (parseMembers f (d :: r2)).map (fun p => (.obj p.1, p.2))
      else none

/-- Parse the elements of a nonempty array up to and including `]`. -/
def parseElems : Nat → List Char → Option (List Json × List Char)
  | 0, _ => none
  | f + 1, cs =>
    match parseVal f cs with
    | none => none
    | some (v, rest) =>
      match skipWs rest with
      | [] => none
      | c :: r2 =>
        if c = ']' then some ([v], r2)
        else if c = ',' then (parseElems f r2).map (fun p => (v :: p.1, p.2))
        else none

/-- Parse the members of a nonempty object up to and including the
closing brace. -/
def parseMembers : Nat → List Char → Option (List (String × Json) × List Char)
  | 0, _ => none
  | f + 1, cs =>
    match skipWs cs with
    | [] => none
    | c :: rest =>
      if c = '"' then
        match parseStrBody rest with
        | none => none
        | some (kcs, r1) =>
          match skipWs r1 with
          | [] => none
          | d :: r2 =>
            if d = ':' then
              match parseVal f r2 with
              | none => none
              | some (v, r3) =>
                match skipWs r3 with
                | [] => none
                | e :: r4 =>
                  if e = rbrace then some ([(String.mk kcs, v)], r4)
                  else if e = ',' then
                    (parseMembers f r4).map (fun p => ((String.mk kcs, v) :: p.1, p.2))
                  else none
            else none
      else none

end

/-- Parse a whole character list as JSON, requiring only whitespace after
the value (`json.loads` on the text). -/
def loadsChars (cs : List Char) : Option Json :=
  match parseVal (cs.length + 1) cs with
  | some (v, rest) => if (skipWs rest).isEmpty then some v else none
  | none => none

/-- Python's `json.loads` on a string: the parsed value, or `none` on
`JSONDecodeError`. -/
def loadsJson (s : String) : Option Json := loadsChars s.toList

/-! ## The response parser's two scanning passes

`extract_json_from_response` (src/api/main.py:41-74) falls back from direct
parsing to markdown code fences, then to a brace-delimited scan.  The two
scans below reproduce, on character lists, what `re.findall` computes for
the code's two patterns. -/

/-- The input remaining after the first occurrence of three backticks,
or `none` when there is none. -/
def dropToTicks : List Char → Option (List Char)
  | c1 :: c2 :: c3 :: r =>
    if c1 = tick ∧ c2 = tick ∧ c3 = tick then some r
    else dropToTicks (c2 :: c3 :: r)
  | _ => none

/-- Split at the next occurrence of three backticks: the characters before
it and the input after it. -/
def takeToTicks : List Char → Option (List Char × List Char)
  | c1 :: c2 :: c3 :: r =>
    if c1 = tick ∧ c2 = tick ∧ c3 = tick then some ([], r)
    else (takeToTicks (c2 :: c3 :: r)).map (fun p => (c1 :: p.1, p.2))
  | _ => none

/-- Remove a single trailing newline, as the regex's `\n?` before the
closing fence does. -/
def dropOneTrailingNewline (cs : List Char) : List Char :=
  match cs.reverse with
  | '\n' :: r => r.reverse
  | _ => cs

/-- One step of the fence scan: the capture of the next code-fence match
and the input after it.  Mirrors the pattern "triple backtick, optional
literal `json`, greedy whitespace, lazy body, optional newline, triple
backtick": only the tag `json` is recognised; any other language tag is
left inside the capture. -/
def fenceStep (cs : List Char) : Option (List Char × List Char) :=
  match dropToTicks cs with
  | none => none
  | some afterOpen =>
    let afterTag := if ['j', 's', 'o', 'n'].isPrefixOf afterOpen
                    then afterOpen.drop 4 else afterOpen
    let body := afterTag.dropWhile isPyWs
    match takeToTicks body with
    | none => none
    | some (content, rest) => some (dropOneTrailingNewline content, rest)

/-- Iterate the fence scan over the input, as `re.findall` does, resuming
after each match. -/
def fenceLoop : Nat → List Char → List (List Char)
  | 0, _ => []
  | fuel + 1, cs =>
    match fenceStep cs with
    | none => []
    | some (content, rest) => content :: fenceLoop fuel rest

/-- All captures of the code-fence pattern, in order of appearance. -/
def fenceCaptures (cs : List Char) : List (List Char) :=
  fenceLoop (cs.length + 1) cs

/-- All matches of the greedy brace pattern: because the match is greedy,
it spans from the first left brace to the last right brace after it, so
there is at most one candidate. -/
def braceCandidates (cs : List Char) : List (List Char) :=
  let t := cs.dropWhile (fun c => !(c == lbrace))
  match t with
  | [] => []
  | b :: u =>
    let revTail := u.reverse.dropWhile (fun c => !(c == rbrace))
    if revTail.isEmpty then [] else [b :: revTail.reverse]

/-- Insert into a list sorted by descending length, after entries of equal
or greater length. -/
def insertByLenDesc (x : List Char) : List (List Char) → List (List Char)
  | [] => [x]
  | y :: ys => if y.length < x.length then x :: y :: ys else y :: insertByLenDesc x ys

/-- Stable sort by descending length, as `sorted(key=len, reverse=True)`. -/
def sortByLenDesc (l : List (List Char)) : List (List Char) :=
  l.foldr insertByLenDesc []

/-- Attempt `json.loads` on each candidate in order and keep the first
success. -/
def firstLoads : List (List Char) → Option Json
  | [] => none
  | c :: rest =>
    match loadsChars c with
    | some j => some j
    | none => firstLoads rest

/-- The layered response parser `extract_json_from_response`
(src/api/main.py:41-74): direct parse, then each code-fence capture
stripped, then the brace-scan candidates longest first; otherwise the
`JSONDecodeError` carries the original text. -/
def extract_json_from_response (s : String) : Except String Json :=
  match loadsJson s with
  | some j => .ok j
  | none =>
    match firstLoads ((fenceCaptures s.toList).map stripChars) with
    | some j => .ok j
    | none =>
      match firstLoads (sortByLenDesc (braceCandidates s.toList)) with
      | some j => .ok j
      | none => .error s

/-! ## The offer-letter pipeline (src/api/main.py:311-503)

Network effects are embedded as oracles: each page's model call yields
either an upstream error or raw response text, and each merge call yields
response text drawn from a stream indexed by call number. -/

/-- A parsed extraction: field name to value, in insertion order, as a
Python `dict` holds it. -/
abbrev Obj := List (String × Json)

/-- The code's null test on a field value: Python `None` or the literal
string `"null"` (src/api/main.py:405). -/
def isNullLike : Json → Bool
  | .null => true
  | .str s => s == "null"
  | _ => false

/-- The Map Stage's field-cleaning comprehension: keep the fields whose
value is neither `None` nor `"null"` (src/api/main.py:404-406). -/
def cleanFields (m : Obj) : Obj := m.filter (fun kv => !(isNullLike kv.2))

/-- Python `dict` lookup on the association list (first, hence only,
occurrence of the key). -/
def lookupField (k : String) : Obj → Option Json
  | [] => none
  | (k', v) :: rest => if k' = k then some v else lookupField k rest

/-- Python `dict` assignment: update the value in place when the key is
present, otherwise append the new entry. -/
def setField (k : String) (d : Json) : Obj → Obj
  | [] => [(k, d)]
  | (k', v) :: rest => if k' = k then (k', d) :: rest else (k', v) :: setField k d rest

/-- One iteration of the per-page parse loop (src/api/main.py:400-410):
parse the raw result, clean null-like fields, and keep the page only when
something parseable and nonempty remains.  A result that parses to a
non-mapping raises on `.items()` and is skipped by the same handler. -/
def pageParse (raw : String) : Option Obj :=
  match extract_json_from_response raw with
  | .ok (.obj m) =>
    let c := cleanFields m
    if c.isEmpty then none else some c
  | _ => none

/-- The error taxonomy the endpoint can surface. -/
inductive PipelineError where
  | mediaType
  | config
  | renderFailure
  | upstream (msg : String)
  | noUsable
  | parseFailure (text : String)
  | typeError
  | validation
deriving DecidableEq

/-- `asyncio.gather` with default options (src/api/main.py:394-396): all
page results when every task succeeds, otherwise the raised exception
propagates and aborts the stage. -/
def gatherResults : List (Except String String) → Except String (List String)
  | [] => .ok []
  | .error e :: _ => .error e
  | .ok r :: rest => (gatherResults rest).map (fun l => r :: l)

/-- The Map Stage (src/api/main.py:394-415): gather all page responses,
parse and clean each, and report the no-usable-extraction error when
nothing survives. -/
def mapStage (pageResults : List (Except String String)) : Except PipelineError (List Obj) :=
  match gatherResults pageResults with
  | .error e => .error (.upstream e)
  | .ok raws =>
    let pages := raws.filterMap pageParse
    if pages.isEmpty then .error .noUsable else .ok pages

set_option linter.unusedVariables false in
/-- `merge_two_extractions` (src/api/main.py:418-451): the two extractions
are serialized into a merge prompt holding the conflict-resolution rules,
the model is called, and its response is parsed by
`extract_json_from_response`.  The embedding takes the model's response as
an oracle argument; the extractions shape the prompt but the returned
value is whatever the response parses to. -/
def merge_two_extractions (response : String) (extraction1 extraction2 : Json) :
    Except String Json :=
  extract_json_from_response response

/-- The incremental merge loop (src/api/main.py:457-462) over the pages
after the first, threading the running result, recording each merge call's
arguments, and consuming one oracle response per call. -/
def reduceLoop (oracle : Nat → String) (acc : Json) :
    List Obj → List (Json × Obj) × Except String Json
  | [] => ([], .ok acc)
  | p :: ps =>
    match merge_two_extractions (oracle 0) acc (.obj p) with
    | .error e => ([(acc, p)], .error e)
    | .ok m =>
      let next := reduceLoop (fun n => oracle (n + 1)) m ps
      ((acc, p) :: next.1, next.2)

/-- The Reduce Stage (src/api/main.py:453-462): a single collected page is
used directly; otherwise the first page seeds the running result and each
subsequent page is merged in sequentially. -/
def reduceStage (oracle : Nat → String) :
    List Obj → List (Json × Obj) × Except String Json
  | [] => ([], .error "no extractions")
  | p :: ps => reduceLoop oracle (.obj p) ps

/-- The `default_values` table (src/api/main.py:465-478): `none` stands
for Python `None`, the marker for an optional field with no default. -/
def defaultValues : List (String × Option Json) :=
  [("course_name", some (.str "")),
   ("total_tuition_amount", some (.num 0 1)),
   ("remit_amount", some (.num 0 1)),
   ("remit_currency", some (.str "")),
   ("student_name", some (.str "")),
   ("beneficiary_name", some (.str "")),
   ("iban", none),
   ("swift", none),
   ("bsb", none),
   ("payment_purpose", none),
   ("account_number", none),
   ("university_address", some (.str ""))]

/-- One iteration of the defaulting loop (src/api/main.py:479-482): when
the key is missing or its value is `None`, and the default is not `None`,
assign the default. -/
def applyDefault (m : Obj) (kd : String × Option Json) : Obj :=
  match kd.2 with
  | none => m
  | some d =>
    match lookupField kd.1 m with
    | none => setField kd.1 d m
    | some .null => setField kd.1 d m
    | some _ => m

/-- The whole defaulting step: fold the loop over the table. -/
def applyDefaults (m : Obj) : Obj := defaultValues.foldl applyDefault m

/-- Modelled from the spec: the `OfferLetterData` schema class is imported
from `api.models` but absent from `src/`, so the validated record carries
the twelve fields of §4.7 with their contractual types (required strings
and numerics, optional banking and purpose fields). -/
structure OfferLetterData where
  course_name : String
  total_tuition_amount : Int × Nat
  remit_amount : Int × Nat
  remit_currency : String
  student_name : String
  beneficiary_name : String
  university_address : String
  iban : Option String
  swift : Option String
  bsb : Option String
  payment_purpose : Option String
  account_number : Option String
deriving DecidableEq, Repr

/-- Read a required string field. -/
def getReqStr (m : Obj) (k : String) : Option String :=
  match lookupField k m with
  | some (.str s) => some s
  | _ => none

/-- Read a required numeric field. -/
def getReqNum (m : Obj) (k : String) : Option (Int × Nat) :=
  match lookupField k m with
  | some (.num a b) => some (a, b)
  | _ => none

/-- Read an optional string field: absent and null both mean `none`. -/
def getOptStr (m : Obj) (k : String) : Option (Option String) :=
  match lookupField k m with
  | none => some none
  | some .null => some none
  | some (.str s) => some (some s)
  | some _ => none

/-- A well-formed BSB: six digits, optionally hyphenated at position 3
(spec §3). -/
def isBsbFormat (s : String) : Bool :=
  match s.toList with
  | [a, b, c, d, e, f] => [a, b, c, d, e, f].all isDigitCh
  | [a, b, c, h, d, e, f] => h == '-' && [a, b, c, d, e, f].all isDigitCh
  | _ => false

/-- Modelled from the spec: the jurisdiction invariant of §3 — exactly one
of (a) `swift` and `iban` present with `bsb` and `account_number` absent,
or (b) `swift`, a well-formed `bsb` and `account_number` present with
`iban` absent. -/
def jurisdictionOk (iban swift bsb acct : Option String) : Bool :=
  (swift.isSome && iban.isSome && bsb.isNone && acct.isNone) ||
  (swift.isSome && iban.isNone && acct.isSome &&
    (match bsb with | some s => isBsbFormat s | none => false))

/-- Modelled from the spec: `OfferLetterData(**data)` validation — the
schema-validator contract of §4.7: required fields must be present with
their types, optional fields may be absent or null, and the §3
jurisdiction invariant must hold. -/
def validateOfferLetter (j : Json) : Option OfferLetterData :=
  match j with
  | .obj m => do
    let course_name ← getReqStr m "course_name"
    let total_tuition_amount ← getReqNum m "total_tuition_amount"
    let remit_amount ← getReqNum m "remit_amount"
    let remit_currency ← getReqStr m "remit_currency"
    let student_name ← getReqStr m "student_name"
    let beneficiary_name ← getReqStr m "beneficiary_name"
    let university_address ← getReqStr m "university_address"
    let iban ← getOptStr m "iban"
    let swift ← getOptStr m "swift"
    let bsb ← getOptStr m "bsb"
    let payment_purpose ← getOptStr m "payment_purpose"
    let account_number ← getOptStr m "account_number"
    if jurisdictionOk iban swift bsb account_number then
      some ⟨course_name, total_tuition_amount, remit_amount, remit_currency,
            student_name, beneficiary_name, university_address,
            iban, swift, bsb, payment_purpose, account_number⟩
    else none
  | _ => none

/-- The offer-letter endpoint (src/api/main.py:311-503).  Arguments: the
upload's content type, the configured bearer token, one oracle outcome per
rendered page, and the merge-response oracle.  Returns the number of model
requests issued alongside the outcome, mirroring the endpoint's guard
order: media-type check, credential check, render-emptiness check, Map
Stage, Reduce Stage, defaulting, serialization round through the response
parser, and schema validation. -/
def ocr_offer_letter_endpoint (contentType bearerToken : String)
    (pageResults : List (Except String String)) (mergeOracle : Nat → String) :
    Nat × Except PipelineError OfferLetterData :=
  if contentType ≠ "application/pdf" then (0, .error .mediaType)
  else if bearerToken = "" then (0, .error .config)
  else if pageResults.isEmpty then (0, .error .renderFailure)
  else
    match mapStage pageResults with
    | .error e => (pageResults.length, .error e)
    | .ok pages =>
      match reduceStage mergeOracle pages with
      | (trace, .error e) =>
          (pageResults.length + trace.length, .error (.parseFailure e))
      | (trace, .ok merged) =>
        let calls := pageResults.length + trace.length
        match merged with
        | .obj mm =>
          let defaulted := applyDefaults mm
          match extract_json_from_response (dumps (.obj defaulted)) with
          | .error e => (calls, .error (.parseFailure e))
          | .ok data =>
            match validateOfferLetter data with
            | some record => (calls, .ok record)
            | none => (calls, .error .validation)
        | _ => (calls, .error .typeError)

/-! ## Spec-side definitions

Definitions below follow the specification's words, to be compared with the
embeddings above. -/

/-- Whether a JSON value is a mapping, the type the parser contract
promises. -/
def Json.isMapping : Json → Bool
  | .obj _ => true
  | _ => false

/-- Resolution step 1 as the spec words it: parse the entire text as JSON. -/
def directStep (s : String) : Option Json := loadsJson s

/-- Resolution step 2: attempt each fenced code block's capture, stripped,
in order of appearance. -/
def fencedStep (s : String) : Option Json :=
  firstLoads ((fenceCaptures s.toList).map stripChars)

/-- Resolution step 3: attempt each brace-delimited candidate, longest
first. -/
def braceStep (s : String) : Option Json :=
  firstLoads (sortByLenDesc (braceCandidates s.toList))

/-- Modelled from the spec (§4.4): the staged resolution order — each step
tried only if the previous fails, otherwise a failure carrying the original
text. -/
def parseResolutionOrder (s : String) : Except String Json :=
  match (directStep s).orElse (fun _ => (fencedStep s).orElse (fun _ => braceStep s)) with
  | some j => .ok j
  | none => .error s

/-- Modelled from the claim's words for C2: one fence-scan step in which an
arbitrary language tag (any word after the opening fence) is excluded from
the block's contents. -/
def fenceStepGeneric (cs : List Char) : Option (List Char × List Char) :=
  match dropToTicks cs with
  | none => none
  | some afterOpen =>
    let afterTag := afterOpen.dropWhile (fun c => !(isPyWs c) && !(c == tick))
    let body := afterTag.dropWhile isPyWs
    match takeToTicks body with
    | none => none
    | some (content, rest) => some (dropOneTrailingNewline content, rest)

/-- Iterated generic-tag fence scan. -/
def fenceLoopGeneric : Nat → List Char → List (List Char)
  | 0, _ => []
  | fuel + 1, cs =>
    match fenceStepGeneric cs with
    | none => []
    | some (content, rest) => content :: fenceLoopGeneric fuel rest

/-- All generic-tag fence captures of an input. -/
def fenceCapturesGeneric (cs : List Char) : List (List Char) :=
  fenceLoopGeneric (cs.length + 1) cs

/-- Step 2 of the claimed resolution order under the generic reading of
"with or without a language tag": parse the contents of each fenced block,
the tag excluded. -/
def fencedStepGeneric (s : String) : Option Json :=
  firstLoads ((fenceCapturesGeneric s.toList).map stripChars)

/-- Modelled from the spec (§4.6(b)): the fold-left consolidation — start
from the first extraction, merge the running result with each subsequent
partial, replacing it with the call's parsed output. -/
def specFoldMerge (oracle : Nat → String) (acc : Json) : List Obj → Except String Json
  | [] => .ok acc
  | p :: ps =>
    match merge_two_extractions (oracle 0) acc (.obj p) with
    | .error e => .error e
    | .ok m => specFoldMerge (fun n => oracle (n + 1)) m ps

/-- The serialized digits of a JSON number, sign excluded: plain digits
for an integer, otherwise zero-padded digits with a decimal point `e`
places from the right. -/
def numBodyChars (mag e : Nat) : List Char :=
  if e = 0 then digitChars mag
  else
    let ds := digitChars mag
    let padded := List.replicate (e + 1 - ds.length) '0' ++ ds
    padded.take (padded.length - e) ++ '.' :: padded.drop (padded.length - e)

/-- What may follow a serialized value for the parser to stop exactly at
its end: nothing, or a separator or closing bracket. -/
def delimOk (rest : List Char) : Prop :=
  rest = [] ∨ ∃ c r, rest = c :: r ∧ (c = ',' ∨ c = ']' ∨ c = rbrace)

/-! ## Concrete witness inputs -/

/-- A merge-response oracle answering every call with a small object. -/
def wMergeOracle : Nat → String := fun _ => "\x7b\"a\": 1\x7d"

/-- First collected page extraction of the three-page witness run. -/
def wPartial0 : Obj := [("b", .str "x")]

/-- Second collected page extraction. -/
def wPartial1 : Obj := [("c", .str "y")]

/-- Third collected page extraction. -/
def wPartial2 : Obj := [("d", .str "z")]

/-- What each witness merge response parses to. -/
def wMerged : Json := .obj [("a", .num 1 0)]

/-- The merge-call trace of the three-page witness run. -/
def wTrace : List (Json × Obj) := [(.obj wPartial0, wPartial1), (wMerged, wPartial2)]

/-- A single-page model response carrying Australian banking fields. -/
def wBankPage : String :=
  "\x7b\"swift\": \"NATAAU33\", \"bsb\": \"123456\", \"account_number\": \"9999\"\x7d"

/-- The validated record the endpoint returns on the witness run. -/
def wBankRecord : OfferLetterData :=
  ⟨"", (0, 1), (0, 1), "", "", "", "",
   none, some "NATAAU33", some "123456", none, some "9999"⟩

/-! ## Helper lemmas -/

/-- The cleaning predicate in the claim's vocabulary. -/
theorem isNullLike_eq_false_iff (v : Json) :
    isNullLike v = false ↔ v ≠ .null ∧ v ≠ .str "null" := by
  cases v <;> simp [isNullLike]

/-- Gathering a list of successes succeeds with the list. -/
theorem gatherResults_map_ok (raws : List String) :
    gatherResults (raws.map Except.ok) = .ok raws := by
  induction raws with
  | nil => rfl
  | cons r rest ih => simp [gatherResults, ih, Except.map]

/-- Gathering a list holding an error fails. -/
theorem gatherResults_has_error (rs : List (Except String String)) (e : String)
    (h : Except.error e ∈ rs) : ∃ e', gatherResults rs = .error e' := by
  induction rs with
  | nil => cases h
  | cons r rest ih =>
    cases r with
    | error e0 => exact ⟨e0, rfl⟩
    | ok v =>
      rcases List.mem_cons.mp h with h1 | h2
      · cases h1
      · obtain ⟨e', he⟩ := ih h2
        exact ⟨e', by simp [gatherResults, he, Except.map]⟩

/-! ## The claims -/

/-- C10: the mapping contract of `parse` is not enforced at the interface —
the bare JSON array `"[1, 2]"` parses at the direct-parse step and is
returned as is, a value that is not a mapping. -/
theorem response_parser_returns_nonmapping :
    extract_json_from_response "[1, 2]" = .ok (.arr [.num 1 0, .num 2 0]) ∧
    Json.isMapping (.arr [.num 1 0, .num 2 0]) = false :=
  ⟨rfl, rfl⟩

/-- C2: counterexample — on a fenced block with the language tag `python`,
the code's capture keeps the tag word inside the attempted contents, so the
parse fails and the whole call returns the failure carrying the original
text; the claimed step (2), which parses the contents of a fenced block
with or without a language tag, succeeds on the block's contents `"hi"`. -/
theorem response_parser_language_tag_cex :
    extract_json_from_response "```python\n\"hi\"\n```"
        = .error "```python\n\"hi\"\n```" ∧
    fencedStepGeneric "```python\n\"hi\"\n```" = some (.str "hi") :=
  ⟨rfl, rfl⟩

/-- C2 (amended): for every input string the parser computes the staged
resolution order — (1) the entire text as JSON, (2) each fenced code-block
capture in order of appearance, where only the literal `json` language tag
is recognised and any other tag stays inside the attempted contents,
(3) brace-delimited candidates, non-overlapping greedy, sorted by length
descending, (4) otherwise a failure carrying the original text. -/
theorem response_parser_resolution_order (s : String) :
    extract_json_from_response s = parseResolutionOrder s := by
  unfold extract_json_from_response parseResolutionOrder directStep fencedStep braceStep
  cases loadsJson s <;>
    cases firstLoads ((fenceCaptures s.toList).map stripChars) <;>
      cases firstLoads (sortByLenDesc (braceCandidates s.toList)) <;> rfl

/-- C4: the field-cleaning step keeps exactly the fields whose value is
neither null nor the literal string "null", unchanged and in order, and
cleans the worked example `\x7ba: 1, b: null, c: "null"\x7d` to `\x7ba: 1\x7d`. -/
theorem map_stage_field_cleaning :
    (∀ (m : Obj) (k : String) (v : Json),
        (k, v) ∈ cleanFields m ↔ ((k, v) ∈ m ∧ v ≠ .null ∧ v ≠ .str "null")) ∧
    (∀ m : Obj, (cleanFields m).Sublist m) ∧
    cleanFields [("a", .num 1 0), ("b", .null), ("c", .str "null")]
      = [("a", .num 1 0)] := by
  refine ⟨fun m k v => ?_, fun m => List.filter_sublist m, rfl⟩
  rw [cleanFields, List.mem_filter]
  simp [isNullLike_eq_false_iff]

/-- C3: counterexample — a single page's upstream error aborts the whole
Map Stage: the first page alone yields a usable extraction, yet adding a
second page whose model call failed makes the stage fail with that upstream
error instead of collecting the first page's extraction. -/
theorem map_stage_upstream_abort_cex :
    mapStage [.ok "\x7b\"a\": 1\x7d"] = .ok [[("a", .num 1 0)]] ∧
    mapStage [.ok "\x7b\"a\": 1\x7d", .error "boom"]
      = .error (.upstream "boom") :=
  ⟨rfl, rfl⟩

/-- C3 (amended): when every page's model call succeeds, the Map Stage
collects, in page order, exactly the pages that parse to a nonempty cleaned
extraction — per-page parse failures are dropped — and raises the
no-usable-extraction error if and only if no page yields one; but an
upstream error on any single page aborts the stage as an upstream failure. -/
theorem map_stage_drop_and_abort :
    (∀ raws : List String,
        mapStage (raws.map Except.ok) =
          (let pages := raws.filterMap pageParse
           if pages.isEmpty then .error .noUsable else .ok pages)) ∧
    (∀ (rs : List (Except String String)) (e : String),
        Except.error e ∈ rs → ∃ e', mapStage rs = .error (.upstream e')) := by
  constructor
  · intro raws
    simp [mapStage, gatherResults_map_ok]
  · intro rs e h
    obtain ⟨e', he⟩ := gatherResults_has_error rs e h
    exact ⟨e', by simp [mapStage, he]⟩

/-- C7: with exactly one collected PartialExtraction the Reduce Stage
issues no merge call (the call trace is empty and no oracle response is
consumed) and returns that extraction unchanged. -/
theorem reduce_stage_single_page (oracle : Nat → String) (p : Obj) :
    reduceStage oracle [p] = ([], .ok (.obj p)) := rfl

/-! ## Dictionary lemmas for the defaulting step -/

/-- Looking up the key just assigned finds the assigned value. -/
theorem lookupField_setField_self (k : String) (d : Json) (m : Obj) :
    lookupField k (setField k d m) = some d := by
  induction m with
  | nil => simp [setField, lookupField]
  | cons kv rest ih =>
    obtain ⟨k', v⟩ := kv
    by_cases h : k' = k <;> simp [setField, lookupField, h, ih]

/-- Assignment leaves other keys' lookups unchanged. -/
theorem lookupField_setField_ne (k k2 : String) (d : Json) (m : Obj) (h : k ≠ k2) :
    lookupField k2 (setField k d m) = lookupField k2 m := by
  induction m with
  | nil => simp [setField, lookupField, h]
  | cons kv rest ih =>
    obtain ⟨k', v⟩ := kv
    by_cases h1 : k' = k
    · subst h1
      simp [setField, lookupField, h]
    · by_cases h2 : k' = k2 <;> simp [setField, lookupField, h1, h2, ih, Ne.symm h]

/-- An optional entry of the defaults table changes nothing. -/
theorem applyDefault_optional (m : Obj) (k : String) :
    applyDefault m (k, none) = m := rfl

/-- One defaulting iteration leaves other keys' lookups unchanged. -/
theorem lookupField_applyDefault_ne (m : Obj) (kd : String × Option Json) (k2 : String)
    (h : kd.1 ≠ k2) : lookupField k2 (applyDefault m kd) = lookupField k2 m := by
  obtain ⟨k, d⟩ := kd
  cases d with
  | none => rfl
  | some dv =>
    simp only [applyDefault]
    cases hlk : lookupField k m with
    | none => exact lookupField_setField_ne k k2 dv m h
    | some v => cases v <;> first
      | exact lookupField_setField_ne k k2 dv m h
      | rfl

/-- One defaulting iteration on its own key: a missing or null value
becomes the default, any other value stays. -/
theorem lookupField_applyDefault_self (m : Obj) (k : String) (d : Json) :
    lookupField k (applyDefault m (k, some d)) =
      match lookupField k m with
      | none => some d
      | some .null => some d
      | some v => some v := by
  simp only [applyDefault]
  cases hlk : lookupField k m with
  | none => simp [lookupField_setField_self]
  | some v => cases v <;> simp [hlk, lookupField_setField_self]

/-- Folding the defaulting loop over a table that avoids a key leaves that
key's lookup unchanged. -/
theorem lookupField_foldl_not_mem (L : List (String × Option Json)) (m : Obj) (k : String)
    (h : ∀ kd ∈ L, kd.1 ≠ k) :
    lookupField k (L.foldl applyDefault m) = lookupField k m := by
  induction L generalizing m with
  | nil => rfl
  | cons kd L ih =>
    rw [List.foldl_cons, ih _ (fun x hx => h x (List.mem_cons_of_mem _ hx)),
        lookupField_applyDefault_ne _ _ _ (h kd (List.mem_cons_self _ _))]

/-- C5: the defaulting step sets each required string field that is missing
or null to the empty string, each required numeric field that is missing or
null to 0.0, leaves the optional fields' lookups exactly as they were (null
stays null, absent stays absent), keeps already-present non-null values
unchanged, and does not touch keys outside the defaults table. -/
theorem schema_defaulting (m : Obj) :
    (∀ k ∈ ["course_name", "remit_currency", "student_name",
            "beneficiary_name", "university_address"],
        lookupField k (applyDefaults m) =
          match lookupField k m with
          | none => some (.str "")
          | some .null => some (.str "")
          | some v => some v) ∧
    (∀ k ∈ ["total_tuition_amount", "remit_amount"],
        lookupField k (applyDefaults m) =
          match lookupField k m with
          | none => some (.num 0 1)
          | some .null => some (.num 0 1)
          | some v => some v) ∧
    (∀ k ∈ ["iban", "swift", "bsb", "payment_purpose", "account_number"],
        lookupField k (applyDefaults m) = lookupField k m) ∧
    (∀ k, k ∉ defaultValues.map Prod.fst →
        lookupField k (applyDefaults m) = lookupField k m) := by
  refine ⟨?_, ?_, ?_, ?_⟩
  · intro k hk
    fin_cases hk <;>
      simp [applyDefaults, defaultValues, applyDefault_optional,
            lookupField_applyDefault_ne, lookupField_applyDefault_self]
  · intro k hk
    fin_cases hk <;>
      simp [applyDefaults, defaultValues, applyDefault_optional,
            lookupField_applyDefault_ne, lookupField_applyDefault_self]
  · intro k hk
    fin_cases hk <;>
      simp [applyDefaults, defaultValues, applyDefault_optional,
            lookupField_applyDefault_ne, lookupField_applyDefault_self]
  · intro k hk
    refine lookupField_foldl_not_mem _ _ _ (fun kd hkd he => hk ?_)
    exact he ▸ List.mem_map_of_mem Prod.fst hkd

/-- A successful run of the merge loop is the spec's fold left: the call
trace visits the remaining pages in order, each call combines the running
result with the next partial, each next running result is the previous
call's parsed output, and the overall result agrees with the fold. -/
theorem reduceLoop_ok (oracle : Nat → String) (acc : Json) (ps : List Obj)
    (t : List (Json × Obj)) (r : Json)
    (h : reduceLoop oracle acc ps = (t, .ok r)) :
    t.length = ps.length ∧
    t.map Prod.snd = ps ∧
    (∀ x, t.get? 0 = some x → x.1 = acc) ∧
    (∀ i x y, t.get? i = some x → t.get? (i + 1) = some y →
        merge_two_extractions (oracle i) x.1 (.obj x.2) = .ok y.1) ∧
    (ps = [] → r = acc) ∧
    (ps ≠ [] → ∀ x, t.get? (t.length - 1) = some x →
        merge_two_extractions (oracle (t.length - 1)) x.1 (.obj x.2) = .ok r) ∧
    specFoldMerge oracle acc ps = .ok r := by
  induction ps generalizing oracle acc t r with
  | nil =>
    simp only [reduceLoop] at h
    injection h with h1 h2
    injection h2 with h3
    subst h1
    subst h3
    refine ⟨rfl, rfl, ?_, ?_, fun _ => rfl, fun hne => absurd rfl hne, rfl⟩
    · intro x hx
      cases hx
    · intro i x y hx hy
      cases hx
  | cons p ps ih =>
    simp only [reduceLoop] at h
    cases hm : merge_two_extractions (oracle 0) acc (.obj p) with
    | error e =>
      rw [hm] at h
      injection h with h1 h2
      cases h2
    | ok mres =>
      rw [hm] at h
      dsimp only at h
      rcases hnext : reduceLoop (fun n => oracle (n + 1)) mres ps with ⟨t', r'⟩
      rw [hnext] at h
      injection h with h1 h2
      subst h1
      subst h2
      obtain ⟨ihlen, ihmap, ihfirst, ihchain, ihnil, ihlast, ihfold⟩ :=
        ih (fun n => oracle (n + 1)) mres t' r hnext
      refine ⟨by simp [ihlen], by simp [ihmap], ?_, ?_, ?_, ?_, ?_⟩
      · intro x hx
        simp only [List.get?_cons_zero] at hx
        injection hx with hx
        rw [← hx]
      · intro i x y hx hy
        cases i with
        | zero =>
          simp only [List.get?_cons_zero] at hx
          injection hx with hx
          simp only [List.get?_cons_succ, List.get?_cons_zero] at hy
          rw [← hx]
          rw [hm]
          exact congrArg Except.ok (ihfirst y hy).symm
        | succ i =>
          simp only [List.get?_cons_succ] at hx hy
          exact ihchain i x y hx hy
      · intro hh
        cases hh
      · intro _ x hx
        cases ps with
        | nil =>
          have ht' : t' = [] := List.length_eq_zero.mp ihlen
          subst ht'
          have hx2 : some (acc, p) = some x := hx
          injection hx2 with hx2
          subst hx2
          show merge_two_extractions (oracle 0) acc (Json.obj p) = Except.ok r
          rw [hm, ihnil rfl]
        | cons q qs =>
          have hlen1 : 1 ≤ t'.length := by
            rw [ihlen]
            exact Nat.succ_le_succ (Nat.zero_le _)
          have hidx : ((acc, p) :: t').length - 1 = (t'.length - 1) + 1 := by
            simp only [List.length_cons]
            omega
          rw [hidx] at hx
          simp only [List.get?_cons_succ] at hx
          have := ihlast (by simp) x hx
          rw [hidx]
          have harg : (t'.length - 1) + 1 = t'.length - 1 + 1 := rfl
          exact this
      · simp only [specFoldMerge, hm]
        exact ihfold

/-- C6: on a successful run over N collected PartialExtractions (N at
least 2), the Reduce Stage is a strictly sequential fold left: it issues
exactly N-1 merge calls, the calls visit the subsequent pages in page
order, the first call starts from the first PartialExtraction, every later
call's running argument is the previous call's parsed output, the last
call's parsed output is the returned MergedExtraction, and the outcome is
the spec's fold-left consolidation. -/
theorem reduce_stage_fold_left (oracle : Nat → String) (p : Obj) (ps : List Obj)
    (t : List (Json × Obj)) (r : Json) (hps : ps ≠ [])
    (h : reduceStage oracle (p :: ps) = (t, .ok r)) :
    t.length = ps.length ∧
    t.map Prod.snd = ps ∧
    (∀ x, t.get? 0 = some x → x.1 = .obj p) ∧
    (∀ i x y, t.get? i = some x → t.get? (i + 1) = some y →
        merge_two_extractions (oracle i) x.1 (.obj x.2) = .ok y.1) ∧
    (∀ x, t.get? (t.length - 1) = some x →
        merge_two_extractions (oracle (t.length - 1)) x.1 (.obj x.2) = .ok r) ∧
    specFoldMerge oracle (.obj p) ps = .ok r := by
  have hh := reduceLoop_ok oracle (.obj p) ps t r (by simpa [reduceStage] using h)
  exact ⟨hh.1, hh.2.1, hh.2.2.1, hh.2.2.2.1, hh.2.2.2.2.2.1 hps, hh.2.2.2.2.2.2⟩

/-- C6: witness — a three-page run with concrete extractions and a concrete
merge oracle: two merge calls, visiting the second and third page in order,
chained through the parsed merge outputs. -/
theorem reduce_stage_fold_left_witness :
    wTrace.length = [wPartial1, wPartial2].length ∧
    wTrace.map Prod.snd = [wPartial1, wPartial2] ∧
    (∀ x, wTrace.get? 0 = some x → x.1 = .obj wPartial0) ∧
    (∀ i x y, wTrace.get? i = some x → wTrace.get? (i + 1) = some y →
        merge_two_extractions (wMergeOracle i) x.1 (.obj x.2) = .ok y.1) ∧
    (∀ x, wTrace.get? (wTrace.length - 1) = some x →
        merge_two_extractions (wMergeOracle (wTrace.length - 1)) x.1 (.obj x.2)
          = .ok wMerged) ∧
    specFoldMerge wMergeOracle (.obj wPartial0) [wPartial1, wPartial2] = .ok wMerged :=
  reduce_stage_fold_left wMergeOracle wPartial0 [wPartial1, wPartial2] wTrace wMerged
    (by simp) rfl

/-- The jurisdiction check never accepts both an iban and a bsb. -/
theorem jurisdictionOk_excl (iban swift bsb acct : Option String)
    (h : jurisdictionOk iban swift bsb acct = true) :
    iban = none ∨ bsb = none := by
  cases iban with
  | none => exact Or.inl rfl
  | some i =>
    cases bsb with
    | none => exact Or.inr rfl
    | some b =>
      exfalso
      simp [jurisdictionOk] at h

/-- A record the validator accepts satisfies the mutual-exclusion half of
the jurisdiction invariant. -/
theorem validateOfferLetter_jurisdiction (j : Json) (r : OfferLetterData)
    (h : validateOfferLetter j = some r) : r.iban = none ∨ r.bsb = none := by
  cases j with
  | obj m =>
    simp only [validateOfferLetter, Option.bind_eq_bind] at h
    cases h1 : getReqStr m "course_name" <;> rw [h1] at h <;> simp only [Option.bind] at h
    case none => cases h
    cases h2 : getReqNum m "total_tuition_amount" <;> rw [h2] at h
    case none => cases h
    cases h3 : getReqNum m "remit_amount" <;> rw [h3] at h
    case none => cases h
    cases h4 : getReqStr m "remit_currency" <;> rw [h4] at h
    case none => cases h
    cases h5 : getReqStr m "student_name" <;> rw [h5] at h
    case none => cases h
    cases h6 : getReqStr m "beneficiary_name" <;> rw [h6] at h
    case none => cases h
    cases h7 : getReqStr m "university_address" <;> rw [h7] at h
    case none => cases h
    cases h8 : getOptStr m "iban" <;> rw [h8] at h
    case none => cases h
    cases h9 : getOptStr m "swift" <;> rw [h9] at h
    case none => cases h
    cases h10 : getOptStr m "bsb" <;> rw [h10] at h
    case none => cases h
    cases h11 : getOptStr m "payment_purpose" <;> rw [h11] at h
    case none => cases h
    cases h12 : getOptStr m "account_number" <;> rw [h12] at h
    case none => cases h
    simp only [Option.some_bind] at h
    split at h
    · injection h with hr
      subst hr
      exact jurisdictionOk_excl _ _ _ _ (by assumption)
    · cases h
  | null => cases h
  | bool b => cases h
  | str s => cases h
  | num a b => cases h
  | arr es => cases h

/-- C9: with the bearer-token credential empty, the endpoint fails with the
configuration error and issues no model request at all (the request count
is zero whatever the upload's content type), for every page list and merge
oracle. -/
theorem endpoint_missing_token_fails_fast (pageResults : List (Except String String))
    (mergeOracle : Nat → String) :
    ocr_offer_letter_endpoint "application/pdf" "" pageResults mergeOracle
        = (0, .error .config) ∧
    ∀ contentType : String,
      (ocr_offer_letter_endpoint contentType "" pageResults mergeOracle).1 = 0 := by
  refine ⟨rfl, fun contentType => ?_⟩
  by_cases h : contentType = "application/pdf" <;>
    simp [ocr_offer_letter_endpoint, h]

/-- C1: counterexample — merging an extraction that holds both a six-digit
bsb and an iban with another extraction returns whatever the model's merge
response parses to; with a merge response that still carries the iban, the
MergedExtraction retains the iban alongside the bsb, so the merge step by
itself does not make the iban absent. -/
theorem merge_jurisdiction_cex :
    merge_two_extractions
        "\x7b\"iban\": \"GB29NWBK60161331926819\", \"bsb\": \"123456\"\x7d"
        (.obj [("bsb", .str "123456"), ("iban", .str "GB29NWBK60161331926819")])
        (.obj [("student_name", .str "John")])
      = .ok (.obj [("iban", .str "GB29NWBK60161331926819"),
                   ("bsb", .str "123456")]) ∧
    lookupField "iban"
        [("iban", .str "GB29NWBK60161331926819"), ("bsb", .str "123456")]
      = some (.str "GB29NWBK60161331926819") :=
  ⟨rfl, rfl⟩

/-- C1 (amended): the jurisdiction rules are delegated to the model through
the merge prompt, so a MergedExtraction holds whatever the merge response
holds — the counterexample keeps an iban next to a six-digit bsb.  The
mutual exclusion does hold of every record the endpoint returns, because
the spec-modelled schema validator enforces the jurisdiction invariant:
a returned record never has both iban and bsb populated. -/
theorem endpoint_never_iban_and_bsb (contentType bearerToken : String)
    (pageResults : List (Except String String)) (mergeOracle : Nat → String)
    (n : Nat) (r : OfferLetterData)
    (h : ocr_offer_letter_endpoint contentType bearerToken pageResults mergeOracle
          = (n, .ok r)) :
    r.iban = none ∨ r.bsb = none := by
  unfold ocr_offer_letter_endpoint at h
  split at h
  · exact absurd (congrArg Prod.snd h) (by simp)
  split at h
  · exact absurd (congrArg Prod.snd h) (by simp)
  split at h
  · exact absurd (congrArg Prod.snd h) (by simp)
  split at h
  · exact absurd (congrArg Prod.snd h) (by simp)
  split at h
  · exact absurd (congrArg Prod.snd h) (by simp)
  · dsimp only at h
    split at h
    · split at h
      · exact absurd (congrArg Prod.snd h) (by simp)
      · split at h
        · have h2 := congrArg Prod.snd h
          simp only [] at h2
          injection h2 with h2
          subst h2
          exact validateOfferLetter_jurisdiction _ _ (by assumption)
        · exact absurd (congrArg Prod.snd h) (by simp)
    · exact absurd (congrArg Prod.snd h) (by simp)

set_option maxRecDepth 10000 in
/-- C1: witness — a concrete single-page run through the endpoint returns
a validated record, for which the amended mutual exclusion holds. -/
theorem endpoint_never_iban_and_bsb_witness :
    wBankRecord.iban = none ∨ wBankRecord.bsb = none :=
  endpoint_never_iban_and_bsb "application/pdf" "token" [.ok wBankPage]
    (fun _ => "") 1 wBankRecord rfl

/-! ## Round trip of the serializer through the parser

The lemmas below establish `loads (dumps v) = some v`, the stdlib
round-trip property the direct-parse step relies on. -/

/-- Reading back the character of a digit value. -/
theorem charDigitVal_digitChar (d : Nat) (h : d < 10) :
    charDigitVal (digitChar d) = d := by
  interval_cases d <;> rfl

/-- A digit value's character passes the digit test. -/
theorem isDigitCh_digitChar (d : Nat) (h : d < 10) :
    isDigitCh (digitChar d) = true := by
  interval_cases d <;> rfl

/-- A nonzero digit value's character is not the zero digit. -/
theorem digitChar_ne_zero (d : Nat) (h1 : d < 10) (h2 : d ≠ 0) :
    digitChar d ≠ '0' := by
  interval_cases d
  · exact absurd rfl h2
  all_goals decide

/-- The digit scan of zero is empty at any fuel. -/
theorem digitCharsAux_zero (fuel : Nat) : digitCharsAux fuel 0 = [] := by
  cases fuel <;> rfl

/-- With enough fuel the digit scan agrees with `Nat.digits`. -/
theorem digitCharsAux_eq (fuel : Nat) : ∀ n : Nat, n ≠ 0 → n ≤ fuel →
    digitCharsAux fuel n = (Nat.digits 10 n).map digitChar := by
  induction fuel with
  | zero => intro n hn hf; omega
  | succ f ih =>
    intro n hn hf
    rw [digitCharsAux, if_neg hn,
        Nat.digits_def' (by norm_num : (1:Nat) < 10) (Nat.pos_of_ne_zero hn),
        List.map_cons]
    congr 1
    by_cases h0 : n / 10 = 0
    · rw [h0, digitCharsAux_zero]
      simp
    · have hlt : n / 10 < n := Nat.div_lt_self (Nat.pos_of_ne_zero hn) (by norm_num)
      exact ih (n / 10) h0 (by omega)

/-- The most-significant-first digit characters, via `Nat.digits`. -/
theorem digitChars_eq_map (n : Nat) (hn : n ≠ 0) :
    digitChars n = ((Nat.digits 10 n).map digitChar).reverse := by
  rw [digitChars, if_neg hn, digitCharsAux_eq n n hn (le_refl n)]

/-- Digit characters are never empty. -/
theorem digitChars_ne_nil (n : Nat) : digitChars n ≠ [] := by
  by_cases hn : n = 0
  · subst hn; simp [digitChars]
  · rw [digitChars_eq_map n hn]
    simp [Nat.digits_ne_nil_iff_ne_zero.mpr hn]

/-- Every digit character passes the digit test. -/
theorem digitChars_all_digit (n : Nat) : ∀ c ∈ digitChars n, isDigitCh c = true := by
  by_cases hn : n = 0
  · subst hn
    intro c hc
    simp [digitChars] at hc
    subst hc
    rfl
  · rw [digitChars_eq_map n hn]
    intro c hc
    rw [List.mem_reverse] at hc
    obtain ⟨d, hd, rfl⟩ := List.mem_map.mp hc
    exact isDigitCh_digitChar d (Nat.digits_lt_base (by norm_num) hd)

/-- For a nonzero number the digit characters start with a nonzero digit. -/
theorem digitChars_pos (n : Nat) (hn : n ≠ 0) :
    ∃ c t, digitChars n = c :: t ∧ isDigitCh c = true ∧ c ≠ '0' := by
  have hne : Nat.digits 10 n ≠ [] := Nat.digits_ne_nil_iff_ne_zero.mpr hn
  rw [digitChars_eq_map n hn]
  cases hrev : ((Nat.digits 10 n).map digitChar).reverse with
  | nil =>
    exfalso
    apply hne
    have := congrArg List.length hrev
    simp at this
    exact this
  | cons c t =>
    refine ⟨c, t, rfl, ?_, ?_⟩
    all_goals
      have hhead : ((Nat.digits 10 n).map digitChar).reverse.head? = some c := by
        rw [hrev]; rfl
      rw [List.head?_reverse, List.getLast?_map] at hhead
      rw [List.getLast?_eq_getLast _ hne] at hhead
      simp only [Option.map_some'] at hhead
      injection hhead with hhead
      have hmem := List.getLast_mem hne
      have hlt : (Nat.digits 10 n).getLast hne < 10 :=
        Nat.digits_lt_base (by norm_num) hmem
    · rw [← hhead]
      exact isDigitCh_digitChar _ hlt
    · rw [← hhead]
      exact digitChar_ne_zero _ hlt (Nat.getLast_digit_ne_zero 10 hn)

/-- Folding `Nat.ofDigits` over zeros gives zero. -/
theorem ofDigits_replicate_zero (k : Nat) :
    Nat.ofDigits 10 (List.replicate k 0) = 0 := by
  induction k with
  | zero => rfl
  | succ k ih => simp [List.replicate_succ, Nat.ofDigits_cons, ih]

/-- Reading the digit characters back gives the number. -/
theorem natOfDigitChars_digitChars (n : Nat) :
    natOfDigitChars (digitChars n) = n := by
  by_cases hn : n = 0
  · subst hn; rfl
  · rw [digitChars_eq_map n hn]
    unfold natOfDigitChars
    rw [List.map_reverse, List.reverse_reverse, List.map_map]
    have hmap : (Nat.digits 10 n).map (charDigitVal ∘ digitChar) = Nat.digits 10 n := by
      have h2 : (Nat.digits 10 n).map (charDigitVal ∘ digitChar)
          = (Nat.digits 10 n).map id := by
        apply List.map_congr_left
        intro d hd
        exact charDigitVal_digitChar d (Nat.digits_lt_base (by norm_num) hd)
      rw [h2, List.map_id]
    rw [hmap, Nat.ofDigits_digits]

/-- Left-padding with zero digits does not change the value read back. -/
theorem natOfDigitChars_pad (k : Nat) (ds : List Char) :
    natOfDigitChars (List.replicate k '0' ++ ds) = natOfDigitChars ds := by
  unfold natOfDigitChars
  rw [List.map_append, List.map_replicate, List.reverse_append, List.reverse_replicate,
      Nat.ofDigits_append]
  have : charDigitVal '0' = 0 := rfl
  rw [this, ofDigits_replicate_zero]
  simp

/-- A scan splits an appended list at the boundary when the left part
satisfies the predicate throughout and the right part starts failing it. -/
theorem takeWhile_append_all (p : Char → Bool) (A B : List Char)
    (hA : ∀ a ∈ A, p a = true) (hB : ∀ c r, B = c :: r → p c = false) :
    (A ++ B).takeWhile p = A ∧ (A ++ B).dropWhile p = B := by
  induction A with
  | nil =>
    cases B with
    | nil => exact ⟨rfl, rfl⟩
    | cons c r =>
      simp [List.takeWhile_cons, List.dropWhile_cons, hB c r rfl]
  | cons a A ih =>
    have hpa := hA a (by simp)
    obtain ⟨h1, h2⟩ := ih (fun x hx => hA x (by simp [hx]))
    simp [List.takeWhile_cons, List.dropWhile_cons, hpa, h1, h2]

/-- Dropping whitespace passes over an all-whitespace prefix. -/
theorem skipWs_append (pre cs : List Char) (hpre : ∀ c ∈ pre, isJsonWs c = true) :
    skipWs (pre ++ cs) = skipWs cs := by
  induction pre with
  | nil => rfl
  | cons a l ih =>
    have := hpre a (by simp)
    simp only [skipWs, List.cons_append, List.dropWhile_cons, this, if_true]
    exact ih (fun c hc => hpre c (by simp [hc]))

/-- Dropping whitespace keeps a list whose head is not whitespace. -/
theorem skipWs_cons_not (c : Char) (cs : List Char) (h : isJsonWs c = false) :
    skipWs (c :: cs) = c :: cs := by
  simp [skipWs, List.dropWhile_cons, h]

/-- The value parser ignores an all-whitespace prefix. -/
theorem parseVal_ws (pre : List Char) (hpre : ∀ c ∈ pre, isJsonWs c = true)
    (f : Nat) (cs : List Char) : parseVal f (pre ++ cs) = parseVal f cs := by
  cases f with
  | zero => rfl
  | succ f =>
    simp only [parseVal]
    rw [skipWs_append pre cs hpre]

/-- What the delimiter condition says about a nonempty remainder. -/
theorem delimOk_head (rest : List Char) (hd : delimOk rest) :
    ∀ c r, rest = c :: r → isDigitCh c = false ∧ c ≠ '.' ∧ isJsonWs c = false := by
  intro c r hcr
  rcases hd with h | ⟨c0, r0, heq, hc⟩
  · rw [h] at hcr; cases hcr
  · rw [heq] at hcr
    injection hcr with h1 h2
    subst h1
    rcases hc with rfl | rfl | rfl
    · exact ⟨by decide, by decide, by decide⟩
    · exact ⟨by decide, by decide, by decide⟩
    · exact ⟨by decide, by decide, by decide⟩

/-- A digit character is none of the parser's other dispatch characters. -/
theorem isDigitCh_ne (c : Char) (h : isDigitCh c = true) :
    c ≠ '"' ∧ c ≠ '-' := by
  constructor <;> rintro rfl <;> exact absurd h (by decide)

/-- A serialized number is its sign and its digit body. -/
theorem numChars_eq (m : Int) (e : Nat) :
    numChars m e = (if m < 0 then ['-'] else []) ++ numBodyChars m.natAbs e := by
  by_cases he : e = 0 <;> simp [numChars, numBodyChars, intChars, he]

/-- Parsing the digit body of an integer. -/
theorem parseNumCore_int (neg : Bool) (mag : Nat) (rest : List Char)
    (hd : delimOk rest) :
    parseNumCore neg (digitChars mag ++ rest)
      = some (.num (applySign neg mag) 0, rest) := by
  obtain ⟨tw, dw⟩ := takeWhile_append_all isDigitCh (digitChars mag) rest
    (digitChars_all_digit mag) (fun c r hcr => (delimOk_head rest hd c r hcr).1)
  simp only [parseNumCore, tw, dw]
  have hne : (digitChars mag).isEmpty = false := by
    cases hh : digitChars mag with
    | nil => exact absurd hh (digitChars_ne_nil mag)
    | cons c t => rfl
  rw [if_neg (by simp [hne])]
  have hlead : ¬(1 < (digitChars mag).length ∧ (digitChars mag).headD 'x' = '0') := by
    by_cases hm : mag = 0
    · subst hm
      intro hcon
      have : (digitChars 0).length = 1 := rfl
      omega
    · obtain ⟨c, t, hct, _, hc0⟩ := digitChars_pos mag hm
      rw [hct]
      intro hcon
      exact hc0 hcon.2
  rw [if_neg hlead]
  cases hrest : rest with
  | nil =>
    dsimp only
    rw [natOfDigitChars_digitChars]
  | cons c r =>
    have hc := (delimOk_head rest hd c r hrest).2.1
    dsimp only
    rw [if_neg hc, natOfDigitChars_digitChars]

/-- Parsing the digit body of a number with `e` fractional digits. -/
theorem parseNumCore_frac (neg : Bool) (mag e : Nat) (he : e ≠ 0) (rest : List Char)
    (hd : delimOk rest) :
    parseNumCore neg (numBodyChars mag e ++ rest)
      = some (.num (applySign neg mag) e, rest) := by
  have hds : digitChars mag ≠ [] := digitChars_ne_nil mag
  set ds := digitChars mag with hds_def
  set padded := List.replicate (e + 1 - ds.length) '0' ++ ds with hpad_def
  have hpad_all : ∀ c ∈ padded, isDigitCh c = true := by
    intro c hc
    rw [hpad_def] at hc
    rcases List.mem_append.mp hc with h | h
    · rw [List.eq_of_mem_replicate h]; rfl
    · exact digitChars_all_digit mag c h
  have hdsl : 1 ≤ ds.length := List.length_pos.mpr hds
  have hpadlen : padded.length = (e + 1 - ds.length) + ds.length := by
    rw [hpad_def]; simp
  have hL : e + 1 ≤ padded.length := by omega
  set L := padded.length with hL_def
  set k := L - e with hk_def
  have hk1 : 1 ≤ k := by omega
  have hsplit : numBodyChars mag e ++ rest
      = padded.take k ++ ('.' :: (padded.drop k ++ rest)) := by
    rw [numBodyChars, if_neg he]
    simp only [← hds_def, ← hpad_def, ← hL_def, ← hk_def]
    simp [List.append_assoc]
  rw [hsplit]
  have htake_all : ∀ c ∈ padded.take k, isDigitCh c = true :=
    fun c hc => hpad_all c (List.take_subset _ _ hc)
  obtain ⟨tw, dw⟩ := takeWhile_append_all isDigitCh (padded.take k)
    ('.' :: (padded.drop k ++ rest)) htake_all
    (by intro c r hcr; injection hcr with h1 h2; subst h1; rfl)
  simp only [parseNumCore, tw, dw]
  have hktake : (padded.take k).length = k := by
    rw [List.length_take]; omega
  have hne : (padded.take k).isEmpty = false := by
    cases hh : padded.take k with
    | nil => rw [hh] at hktake; simp at hktake; omega
    | cons c t => rfl
  rw [if_neg (by simp [hne])]
  have hlead : ¬(1 < (padded.take k).length ∧ (padded.take k).headD 'x' = '0') := by
    rintro ⟨hgt, hhead⟩
    rw [hktake] at hgt
    by_cases hcase : ds.length ≤ e + 1
    · omega
    · have hrep : e + 1 - ds.length = 0 := by omega
      have hpad2 : padded = ds := by rw [hpad_def, hrep]; simp
      have hmag : mag ≠ 0 := by
        intro h0
        have hlen1 : ds.length = 1 := by rw [hds_def, h0]; rfl
        omega
      obtain ⟨c, t, hct, _, hc0⟩ := digitChars_pos mag hmag
      rw [hpad2, hds_def, hct] at hhead
      obtain ⟨k', hk'⟩ : ∃ k', k = k' + 1 := ⟨k - 1, by omega⟩
      rw [hk', List.take_succ_cons] at hhead
      simp at hhead
      exact hc0 hhead
  rw [if_neg hlead]
  rw [if_pos trivial]
  have hdrop_all : ∀ c ∈ padded.drop k, isDigitCh c = true :=
    fun c hc => hpad_all c (List.drop_subset _ _ hc)
  obtain ⟨tw2, dw2⟩ := takeWhile_append_all isDigitCh (padded.drop k) rest hdrop_all
    (fun c r hcr => (delimOk_head rest hd c r hcr).1)
  rw [tw2, dw2]
  have hdlen : (padded.drop k).length = e := by
    rw [List.length_drop]; omega
  have hdne : (padded.drop k).isEmpty = false := by
    cases hh : padded.drop k with
    | nil => rw [hh] at hdlen; simp at hdlen; omega
    | cons c t => rfl
  rw [if_neg (by simp [hdne])]
  rw [List.take_append_drop, hdlen]
  have hval : natOfDigitChars padded = mag := by
    rw [hpad_def, natOfDigitChars_pad, hds_def, natOfDigitChars_digitChars]
  rw [hval]

/-- The digit body of any serialized number starts with a digit. -/
theorem numBodyChars_cons (mag e : Nat) :
    ∃ c t, numBodyChars mag e = c :: t ∧ isDigitCh c = true := by
  have hdigit : ∃ c t, digitChars mag = c :: t ∧ isDigitCh c = true := by
    by_cases hm : mag = 0
    · exact ⟨'0', [], by rw [hm]; rfl, rfl⟩
    · obtain ⟨c, t, h1, h2, _⟩ := digitChars_pos mag hm
      exact ⟨c, t, h1, h2⟩
  by_cases he : e = 0
  · obtain ⟨c, t, h1, h2⟩ := hdigit
    exact ⟨c, t, by rw [numBodyChars, if_pos he]; exact h1, h2⟩
  · rw [numBodyChars, if_neg he]
    dsimp only
    obtain ⟨c0, t0, h1, _⟩ := hdigit
    set ds := digitChars mag with hds_def
    set padded := List.replicate (e + 1 - ds.length) '0' ++ ds with hpad_def
    have hdsl : 1 ≤ ds.length := by rw [h1]; simp
    have hpadlen : e + 1 ≤ padded.length := by
      rw [hpad_def]; simp; omega
    have hk1 : 1 ≤ padded.length - e := by omega
    have hpad_all : ∀ c ∈ padded, isDigitCh c = true := by
      intro c hc
      rcases List.mem_append.mp (hpad_def ▸ hc) with h | h
      · rw [List.eq_of_mem_replicate h]; rfl
      · exact digitChars_all_digit mag c h
    cases hh : padded.take (padded.length - e) with
    | nil =>
      exfalso
      have := congrArg List.length hh
      rw [List.length_take] at this
      simp at this
      omega
    | cons c t =>
      refine ⟨c, t ++ '.' :: padded.drop (padded.length - e), ?_, ?_⟩
      · simp
      · have hc : c ∈ padded.take (padded.length - e) := by rw [hh]; simp
        exact hpad_all c (List.take_subset _ _ hc)

/-- A digit character is not whitespace. -/
theorem isDigitCh_not_ws (c : Char) (h : isDigitCh c = true) : isJsonWs c = false := by
  unfold isJsonWs
  have h1 : c ≠ ' ' := by rintro rfl; exact absurd h (by decide)
  have h2 : c ≠ '\t' := by rintro rfl; exact absurd h (by decide)
  have h3 : c ≠ '\n' := by rintro rfl; exact absurd h (by decide)
  have h4 : c ≠ '\r' := by rintro rfl; exact absurd h (by decide)
  simp [h1, h2, h3, h4]

/-- A digit character is not a closing bracket. -/
theorem isDigitCh_ne_rbrk (c : Char) (h : isDigitCh c = true) : c ≠ ']' := by
  rintro rfl; exact absurd h (by decide)

/-- Parsing a serialized number with the sign dispatch of the value
parser. -/
theorem parseVal_numChars (m : Int) (e : Nat) (f : Nat) (hf : 1 ≤ f)
    (rest : List Char) (hd : delimOk rest) :
    parseVal f (numChars m e ++ rest) = some (.num m e, rest) := by
  obtain ⟨f', rfl⟩ : ∃ f', f = f' + 1 := ⟨f - 1, by omega⟩
  have hbody : ∀ neg : Bool, parseNumCore neg (numBodyChars m.natAbs e ++ rest)
      = some (.num (applySign neg m.natAbs) e, rest) := by
    intro neg
    by_cases he : e = 0
    · subst he
      rw [numBodyChars, if_pos rfl]
      exact parseNumCore_int neg m.natAbs rest hd
    · exact parseNumCore_frac neg m.natAbs e he rest hd
  rw [numChars_eq]
  by_cases hm : m < 0
  · rw [if_pos hm]
    simp only [List.cons_append, List.nil_append, parseVal]
    rw [skipWs_cons_not _ _ (by decide)]
    dsimp only
    rw [if_neg (by decide : ¬('-' : Char) = '"'), if_pos rfl]
    rw [hbody true]
    have h2 : applySign true m.natAbs = -(m.natAbs : Int) := rfl
    have h3 : applySign true m.natAbs = m := by rw [h2]; omega
    rw [h3]
  · rw [if_neg hm, List.nil_append]
    obtain ⟨c, t, hb, hdig⟩ := numBodyChars_cons m.natAbs e
    rw [hb]
    simp only [List.cons_append, parseVal]
    rw [skipWs_cons_not _ _ (isDigitCh_not_ws c hdig)]
    dsimp only
    obtain ⟨hq, hmns⟩ := isDigitCh_ne c hdig
    rw [if_neg hq, if_neg hmns, if_pos hdig]
    rw [← List.cons_append, ← hb, hbody false]
    have h2 : applySign false m.natAbs = (m.natAbs : Int) := rfl
    have h3 : applySign false m.natAbs = m := by rw [h2]; omega
    rw [h3]

/-- Every serialized value starts with a character that is neither
whitespace nor a closing square bracket. -/
theorem dumpsChars_cons (v : Json) :
    ∃ c t, dumpsChars v = c :: t ∧ isJsonWs c = false ∧ c ≠ ']' := by
  cases v with
  | null => exact ⟨'n', ['u', 'l', 'l'], rfl, by decide, by decide⟩
  | bool b =>
    cases b with
    | true => exact ⟨'t', ['r', 'u', 'e'], rfl, by decide, by decide⟩
    | false => exact ⟨'f', ['a', 'l', 's', 'e'], rfl, by decide, by decide⟩
  | str s => exact ⟨'"', escapeList s.toList ++ ['"'], rfl, by decide, by decide⟩
  | num m e =>
    show ∃ c t, numChars m e = c :: t ∧ isJsonWs c = false ∧ c ≠ ']'
    rw [numChars_eq]
    by_cases hm : m < 0
    · rw [if_pos hm]
      exact ⟨'-', numBodyChars m.natAbs e, rfl, by decide, by decide⟩
    · rw [if_neg hm, List.nil_append]
      obtain ⟨c, t, hb, hdig⟩ := numBodyChars_cons m.natAbs e
      exact ⟨c, t, hb, isDigitCh_not_ws c hdig, isDigitCh_ne_rbrk c hdig⟩
  | arr es => exact ⟨'[', dumpsElems es ++ [']'], rfl, by decide, by decide⟩
  | obj fs => exact ⟨lbrace, dumpsFields fs ++ [rbrace], rfl, by decide, by decide⟩

/-- The value of a hexadecimal digit character round-trips. -/
theorem hexVal_hexDigitChar (d : Nat) (h : d < 16) :
    hexVal (hexDigitChar d) = some d := by
  interval_cases d <;> rfl

/-- Reading a string body back through its escapes. -/
theorem parseStrBody_escape (l : List Char) (rest : List Char) :
    parseStrBody (escapeList l ++ '"' :: rest) = some (l, rest) := by
  induction l with
  | nil =>
    rw [show escapeList ([] : List Char) = [] from rfl, List.nil_append]
    unfold parseStrBody
    rw [if_pos rfl]
  | cons c l ih =>
    have hesc : escapeList (c :: l) = escapeChar c ++ escapeList l := rfl
    rw [hesc, List.append_assoc]
    by_cases h1 : c = '"'
    · subst h1
      rw [show escapeChar '"' = ['\\', '"'] from by decide]
      simp only [List.cons_append, List.nil_append]
      unfold parseStrBody
      rw [if_neg (by decide : ¬('\\' : Char) = '"'), if_pos rfl]
      dsimp only
      rw [if_pos rfl, ih]
      rfl
    by_cases h2 : c = '\\'
    · subst h2
      rw [show escapeChar '\\' = ['\\', '\\'] from by decide]
      simp only [List.cons_append, List.nil_append]
      unfold parseStrBody
      rw [if_neg (by decide : ¬('\\' : Char) = '"'), if_pos rfl]
      dsimp only
      rw [if_neg (by decide : ¬('\\' : Char) = '"'), if_pos rfl, ih]
      rfl
    by_cases h3 : c = '\n'
    · subst h3
      rw [show escapeChar '\n' = ['\\', 'n'] from by decide]
      simp only [List.cons_append, List.nil_append]
      unfold parseStrBody
      rw [if_neg (by decide : ¬('\\' : Char) = '"'), if_pos rfl]
      dsimp only
      rw [if_neg (by decide : ¬('n' : Char) = '"'),
          if_neg (by decide : ¬('n' : Char) = '\\'),
          if_neg (by decide : ¬('n' : Char) = '/'), if_pos rfl, ih]
      rfl
    by_cases h4 : c = '\t'
    · subst h4
      rw [show escapeChar '\t' = ['\\', 't'] from by decide]
      simp only [List.cons_append, List.nil_append]
      unfold parseStrBody
      rw [if_neg (by decide : ¬('\\' : Char) = '"'), if_pos rfl]
      dsimp only
      rw [if_neg (by decide : ¬('t' : Char) = '"'),
          if_neg (by decide : ¬('t' : Char) = '\\'),
          if_neg (by decide : ¬('t' : Char) = '/'),
          if_neg (by decide : ¬('t' : Char) = 'n'), if_pos rfl, ih]
      rfl
    by_cases h5 : c = '\r'
    · subst h5
      rw [show escapeChar '\r' = ['\\', 'r'] from by decide]
      simp only [List.cons_append, List.nil_append]
      unfold parseStrBody
      rw [if_neg (by decide : ¬('\\' : Char) = '"'), if_pos rfl]
      dsimp only
      rw [if_neg (by decide : ¬('r' : Char) = '"'),
          if_neg (by decide : ¬('r' : Char) = '\\'),
          if_neg (by decide : ¬('r' : Char) = '/'),
          if_neg (by decide : ¬('r' : Char) = 'n'),
          if_neg (by decide : ¬('r' : Char) = 't'), if_pos rfl, ih]
      rfl
    by_cases h6 : c.toNat = 8
    · have hc : c = Char.ofNat 8 := by rw [← h6, Char.ofNat_toNat]
      subst hc
      rw [show escapeChar (Char.ofNat 8) = ['\\', 'b'] from by decide]
      simp only [List.cons_append, List.nil_append]
      unfold parseStrBody
      rw [if_neg (by decide : ¬('\\' : Char) = '"'), if_pos rfl]
      dsimp only
      rw [if_neg (by decide : ¬('b' : Char) = '"'),
          if_neg (by decide : ¬('b' : Char) = '\\'),
          if_neg (by decide : ¬('b' : Char) = '/'),
          if_neg (by decide : ¬('b' : Char) = 'n'),
          if_neg (by decide : ¬('b' : Char) = 't'),
          if_neg (by decide : ¬('b' : Char) = 'r'), if_pos rfl, ih]
      rfl
    by_cases h7 : c.toNat = 12
    · have hc : c = Char.ofNat 12 := by rw [← h7, Char.ofNat_toNat]
      subst hc
      rw [show escapeChar (Char.ofNat 12) = ['\\', 'f'] from by decide]
      simp only [List.cons_append, List.nil_append]
      unfold parseStrBody
      rw [if_neg (by decide : ¬('\\' : Char) = '"'), if_pos rfl]
      dsimp only
      rw [if_neg (by decide : ¬('f' : Char) = '"'),
          if_neg (by decide : ¬('f' : Char) = '\\'),
          if_neg (by decide : ¬('f' : Char) = '/'),
          if_neg (by decide : ¬('f' : Char) = 'n'),
          if_neg (by decide : ¬('f' : Char) = 't'),
          if_neg (by decide : ¬('f' : Char) = 'r'),
          if_neg (by decide : ¬('f' : Char) = 'b'), if_pos rfl, ih]
      rfl
    by_cases h8 : c.toNat < 32
    · have hesc2 : escapeChar c = ['\\', 'u', '0', '0',
          hexDigitChar (c.toNat / 16), hexDigitChar (c.toNat % 16)] := by
        rw [escapeChar, if_neg h1, if_neg h2, if_neg h3, if_neg h4, if_neg h5,
            if_neg h6, if_neg h7, if_pos h8]
      rw [hesc2]
      simp only [List.cons_append, List.nil_append]
      unfold parseStrBody
      rw [if_neg (by decide : ¬('\\' : Char) = '"'), if_pos rfl]
      dsimp only
      rw [if_neg (by decide : ¬('u' : Char) = '"'),
          if_neg (by decide : ¬('u' : Char) = '\\'),
          if_neg (by decide : ¬('u' : Char) = '/'),
          if_neg (by decide : ¬('u' : Char) = 'n'),
          if_neg (by decide : ¬('u' : Char) = 't'),
          if_neg (by decide : ¬('u' : Char) = 'r'),
          if_neg (by decide : ¬('u' : Char) = 'b'),
          if_neg (by decide : ¬('u' : Char) = 'f'), if_pos rfl]
      rw [show hexVal '0' = some 0 from by decide,
          hexVal_hexDigitChar (c.toNat / 16) (by omega),
          hexVal_hexDigitChar (c.toNat % 16) (by omega)]
      dsimp only
      rw [show ((0 * 16 + 0) * 16 + c.toNat / 16) * 16 + c.toNat % 16 = c.toNat
            from by omega,
          Char.ofNat_toNat, ih]
      rfl
    · have hesc2 : escapeChar c = [c] := by
        rw [escapeChar, if_neg h1, if_neg h2, if_neg h3, if_neg h4, if_neg h5,
            if_neg h6, if_neg h7, if_neg h8]
      rw [hesc2]
      simp only [List.cons_append, List.nil_append]
      unfold parseStrBody
      rw [if_neg h1, if_neg h2, if_neg (show ¬c.toNat < 32 from h8), ih]
      rfl

/-- Every serialized value has at least one character. -/
theorem dumpsChars_length_pos (v : Json) : 1 ≤ (dumpsChars v).length := by
  obtain ⟨c, t, h, _, _⟩ := dumpsChars_cons v
  rw [h]
  simp

/-- A comma may follow a serialized value. -/
theorem delimOk_comma (r : List Char) : delimOk (',' :: r) :=
  Or.inr ⟨',', r, rfl, Or.inl rfl⟩

/-- A closing square bracket may follow a serialized value. -/
theorem delimOk_rbrk (r : List Char) : delimOk (']' :: r) :=
  Or.inr ⟨']', r, rfl, Or.inr (Or.inl rfl)⟩

/-- A closing brace may follow a serialized value. -/
theorem delimOk_rbrace (r : List Char) : delimOk (rbrace :: r) :=
  Or.inr ⟨rbrace, r, rfl, Or.inr (Or.inr rfl)⟩

/-- A single blank is all whitespace. -/
theorem ws_singleton_space : ∀ c ∈ [' '], isJsonWs c = true := by
  intro c hc
  rw [List.mem_singleton] at hc
  subst hc
  rfl

/-- The member parser ignores an all-whitespace prefix. -/
theorem parseMembers_ws (pre : List Char) (hpre : ∀ c ∈ pre, isJsonWs c = true)
    (f : Nat) (cs : List Char) : parseMembers f (pre ++ cs) = parseMembers f cs := by
  cases f with
  | zero => rfl
  | succ f =>
    simp only [parseMembers]
    rw [skipWs_append pre cs hpre]

/-- Serialized array elements start with the first element's characters. -/
theorem dumpsElems_cons_head (x : Json) (xs : List Json) :
    ∃ u, dumpsElems (x :: xs) = dumpsChars x ++ u := by
  cases xs with
  | nil => exact ⟨[], by simp [dumpsElems]⟩
  | cons y ys => exact ⟨',' :: ' ' :: dumpsElems (y :: ys), rfl⟩

mutual

/-- Parsing the serialization of a value consumes exactly it: the central
round-trip lemma, by mutual induction with the element and member forms. -/
theorem parseVal_dumps : ∀ (v : Json) (f : Nat) (rest : List Char),
    delimOk rest → (dumpsChars v).length ≤ f →
    parseVal f (dumpsChars v ++ rest) = some (v, rest)
  | .null, f, rest, _, hf => by
    have h1 : 1 ≤ (dumpsChars Json.null).length := dumpsChars_length_pos _
    obtain ⟨f', rfl⟩ : ∃ f', f = f' + 1 := ⟨f - 1, by omega⟩
    exact rfl
  | .bool true, f, rest, _, hf => by
    have h1 : 1 ≤ (dumpsChars (Json.bool true)).length := dumpsChars_length_pos _
    obtain ⟨f', rfl⟩ : ∃ f', f = f' + 1 := ⟨f - 1, by omega⟩
    exact rfl
  | .bool false, f, rest, _, hf => by
    have h1 : 1 ≤ (dumpsChars (Json.bool false)).length := dumpsChars_length_pos _
    obtain ⟨f', rfl⟩ : ∃ f', f = f' + 1 := ⟨f - 1, by omega⟩
    exact rfl
  | .str s, f, rest, _, hf => by
    have h1 : 1 ≤ (dumpsChars (Json.str s)).length := dumpsChars_length_pos _
    obtain ⟨f', rfl⟩ : ∃ f', f = f' + 1 := ⟨f - 1, by omega⟩
    have hshape : dumpsChars (Json.str s) ++ rest
        = '"' :: (escapeList s.toList ++ '"' :: rest) := by
      rw [show dumpsChars (Json.str s)
            = '"' :: (escapeList s.toList ++ ['"']) from rfl]
      simp
    rw [hshape]
    have hstep : parseVal (f' + 1) ('"' :: (escapeList s.toList ++ '"' :: rest))
        = (parseStrBody (escapeList s.toList ++ '"' :: rest)).map
            (fun p => (Json.str (String.mk p.1), p.2)) := rfl
    rw [hstep, parseStrBody_escape]
    rfl
  | .num m e, f, rest, hd, hf => by
    have h1 : 1 ≤ (dumpsChars (Json.num m e)).length := dumpsChars_length_pos _
    show parseVal f (numChars m e ++ rest) = some (Json.num m e, rest)
    exact parseVal_numChars m e f (by omega) rest hd
  | .arr [], f, rest, _, hf => by
    have h1 : 1 ≤ (dumpsChars (Json.arr [])).length := dumpsChars_length_pos _
    obtain ⟨f', rfl⟩ : ∃ f', f = f' + 1 := ⟨f - 1, by omega⟩
    exact rfl
  | .arr (x :: xs), f, rest, _, hf => by
    have hlen : (dumpsChars (Json.arr (x :: xs))).length
        = (dumpsElems (x :: xs)).length + 2 := by
      rw [show dumpsChars (Json.arr (x :: xs))
            = '[' :: (dumpsElems (x :: xs) ++ [']']) from rfl]
      simp
    obtain ⟨f', rfl⟩ : ∃ f', f = f' + 1 := ⟨f - 1, by omega⟩
    obtain ⟨c0, t0, hx, hxw, hxne⟩ := dumpsChars_cons x
    obtain ⟨u, hu⟩ := dumpsElems_cons_head x xs
    have helem : dumpsElems (x :: xs) = c0 :: (t0 ++ u) := by
      rw [hu, hx]
      simp
    have hinput : dumpsChars (Json.arr (x :: xs)) ++ rest
        = '[' :: (dumpsElems (x :: xs) ++ ']' :: rest) := by
      rw [show dumpsChars (Json.arr (x :: xs))
            = '[' :: (dumpsElems (x :: xs) ++ [']']) from rfl]
      simp
    rw [hinput]
    unfold parseVal
    rw [skipWs_cons_not _ _ (by decide)]
    dsimp only
    rw [if_neg (by decide : ¬('[' : Char) = '"'),
        if_neg (by decide : ¬('[' : Char) = '-'),
        if_neg (by decide : ¬isDigitCh '[' = true),
        if_neg (by decide : ¬('[' : Char) = 'n'),
        if_neg (by decide : ¬('[' : Char) = 't'),
        if_neg (by decide : ¬('[' : Char) = 'f'),
        if_pos rfl]
    rw [helem]
    simp only [List.cons_append]
    rw [skipWs_cons_not _ _ hxw]
    dsimp only
    rw [if_neg hxne]
    rw [← List.cons_append, ← helem]
    rw [show dumpsElems (x :: xs) ++ ']' :: rest
          = [] ++ (dumpsElems (x :: xs) ++ ']' :: rest) from rfl]
    rw [parseElems_dumps (x :: xs) (by simp) [] (by simp) f' rest (by omega)]
    rfl
  | .obj [], f, rest, _, hf => by
    have h1 : 1 ≤ (dumpsChars (Json.obj [])).length := dumpsChars_length_pos _
    obtain ⟨f', rfl⟩ : ∃ f', f = f' + 1 := ⟨f - 1, by omega⟩
    exact rfl
  | .obj ((k, v) :: gs), f, rest, _, hf => by
    have hlen : (dumpsChars (Json.obj ((k, v) :: gs))).length
        = (dumpsFields ((k, v) :: gs)).length + 2 := by
      rw [show dumpsChars (Json.obj ((k, v) :: gs))
            = lbrace :: (dumpsFields ((k, v) :: gs) ++ [rbrace]) from rfl]
      simp
    obtain ⟨f', rfl⟩ : ∃ f', f = f' + 1 := ⟨f - 1, by omega⟩
    have hfield : ∃ u, dumpsFields ((k, v) :: gs) = '"' :: u := by
      cases gs with
      | nil =>
        exact ⟨escapeList k.toList ++ ['"'] ++ ':' :: ' ' :: dumpsChars v,
          by rw [show dumpsFields [(k, v)]
                  = strLitChars k ++ ':' :: ' ' :: dumpsChars v from rfl,
                show strLitChars k
                  = '"' :: (escapeList k.toList ++ ['"']) from rfl]; simp⟩
      | cons g hs =>
        exact ⟨escapeList k.toList ++ ['"']
            ++ ':' :: ' ' :: (dumpsChars v ++ ',' :: ' ' :: dumpsFields (g :: hs)),
          by rw [show dumpsFields ((k, v) :: g :: hs)
                  = strLitChars k ++ ':' :: ' ' :: dumpsChars v
                      ++ ',' :: ' ' :: dumpsFields (g :: hs) from rfl,
                show strLitChars k
                  = '"' :: (escapeList k.toList ++ ['"']) from rfl]; simp⟩
    obtain ⟨u, hu⟩ := hfield
    have hinput : dumpsChars (Json.obj ((k, v) :: gs)) ++ rest
        = lbrace :: (dumpsFields ((k, v) :: gs) ++ rbrace :: rest) := by
      rw [show dumpsChars (Json.obj ((k, v) :: gs))
            = lbrace :: (dumpsFields ((k, v) :: gs) ++ [rbrace]) from rfl]
      simp
    rw [hinput]
    unfold parseVal
    rw [skipWs_cons_not _ _ (by decide)]
    dsimp only
    rw [if_neg (by decide : ¬lbrace = '"'),
        if_neg (by decide : ¬lbrace = '-'),
        if_neg (by decide : ¬isDigitCh lbrace = true),
        if_neg (by decide : ¬lbrace = 'n'),
        if_neg (by decide : ¬lbrace = 't'),
        if_neg (by decide : ¬lbrace = 'f'),
        if_neg (by decide : ¬lbrace = '['),
        if_pos rfl]
    rw [hu]
    simp only [List.cons_append]
    rw [skipWs_cons_not _ _ (by decide)]
    dsimp only
    rw [if_neg (by decide : ¬('"' : Char) = rbrace)]
    rw [← List.cons_append, ← hu]
    rw [show dumpsFields ((k, v) :: gs) ++ rbrace :: rest
          = [] ++ (dumpsFields ((k, v) :: gs) ++ rbrace :: rest) from rfl]
    rw [parseMembers_dumps ((k, v) :: gs) (by simp) [] (by simp) f' rest (by omega)]
    rfl

/-- Parsing serialized elements after an optional whitespace prefix
collects the element list up to and including the closing bracket. -/
theorem parseElems_dumps : ∀ (es : List Json), es ≠ [] → ∀ (pre : List Char),
    (∀ c ∈ pre, isJsonWs c = true) → ∀ (f : Nat) (rest : List Char),
    (dumpsElems es).length + 1 ≤ f →
    parseElems f (pre ++ (dumpsElems es ++ ']' :: rest)) = some (es, rest)
  | [], hne, _, _, _, _, _ => absurd rfl hne
  | [x], _, pre, hpre, f, rest, hf => by
    have hlen : (dumpsElems [x]).length = (dumpsChars x).length := by
      rw [show dumpsElems [x] = dumpsChars x from rfl]
    obtain ⟨f', rfl⟩ : ∃ f', f = f' + 1 := ⟨f - 1, by omega⟩
    unfold parseElems
    rw [show dumpsElems [x] = dumpsChars x from rfl, parseVal_ws pre hpre,
        parseVal_dumps x f' (']' :: rest) (delimOk_rbrk rest) (by omega)]
    rfl
  | x :: y :: ys, _, pre, hpre, f, rest, hf => by
    have hx1 : 1 ≤ (dumpsChars x).length := dumpsChars_length_pos x
    have hshape : dumpsElems (x :: y :: ys)
        = dumpsChars x ++ ',' :: ' ' :: dumpsElems (y :: ys) := rfl
    have hlen : (dumpsElems (x :: y :: ys)).length
        = (dumpsChars x).length + 2 + (dumpsElems (y :: ys)).length := by
      rw [hshape]
      simp
      omega
    obtain ⟨f', rfl⟩ : ∃ f', f = f' + 1 := ⟨f - 1, by omega⟩
    unfold parseElems
    rw [parseVal_ws pre hpre, hshape, List.append_assoc]
    simp only [List.cons_append]
    rw [parseVal_dumps x f' (',' :: ' ' :: (dumpsElems (y :: ys) ++ ']' :: rest))
        (delimOk_comma _) (by omega)]
    dsimp only
    rw [skipWs_cons_not _ _ (by decide)]
    dsimp only
    rw [if_neg (by decide : ¬(',' : Char) = ']'), if_pos rfl]
    rw [show (' ' :: (dumpsElems (y :: ys) ++ ']' :: rest))
          = [' '] ++ (dumpsElems (y :: ys) ++ ']' :: rest) from rfl]
    rw [parseElems_dumps (y :: ys) (by simp) [' '] ws_singleton_space f' rest (by omega)]
    rfl

/-- Parsing serialized members after an optional whitespace prefix collects
the field list up to and including the closing brace. -/
theorem parseMembers_dumps : ∀ (fs : List (String × Json)), fs ≠ [] →
    ∀ (pre : List Char), (∀ c ∈ pre, isJsonWs c = true) →
    ∀ (f : Nat) (rest : List Char),
    (dumpsFields fs).length + 1 ≤ f →
    parseMembers f (pre ++ (dumpsFields fs ++ rbrace :: rest)) = some (fs, rest)
  | [], hne, _, _, _, _, _ => absurd rfl hne
  | [(k, v)], _, pre, hpre, f, rest, hf => by
    have hv1 : 1 ≤ (dumpsChars v).length := dumpsChars_length_pos v
    have hshape : dumpsFields [(k, v)]
        = strLitChars k ++ ':' :: ' ' :: dumpsChars v := rfl
    have hstr : strLitChars k = '"' :: (escapeList k.toList ++ ['"']) := rfl
    have hlen : (dumpsFields [(k, v)]).length
        = (escapeList k.toList).length + 2 + 2 + (dumpsChars v).length := by
      rw [hshape, hstr]
      simp
      omega
    obtain ⟨f', rfl⟩ : ∃ f', f = f' + 1 := ⟨f - 1, by omega⟩
    have hinput : dumpsFields [(k, v)] ++ rbrace :: rest
        = '"' :: (escapeList k.toList
            ++ '"' :: (':' :: ' ' :: (dumpsChars v ++ rbrace :: rest))) := by
      rw [hshape, hstr]
      simp
    rw [parseMembers_ws pre hpre, hinput]
    unfold parseMembers
    rw [skipWs_cons_not _ _ (by decide)]
    dsimp only
    rw [if_pos rfl]
    rw [parseStrBody_escape k.toList (':' :: ' ' :: (dumpsChars v ++ rbrace :: rest))]
    dsimp only
    rw [skipWs_cons_not _ _ (by decide)]
    dsimp only
    rw [if_pos rfl]
    rw [show (' ' :: (dumpsChars v ++ rbrace :: rest))
          = [' '] ++ (dumpsChars v ++ rbrace :: rest) from rfl,
        parseVal_ws [' '] ws_singleton_space,
        parseVal_dumps v f' (rbrace :: rest) (delimOk_rbrace rest) (by omega)]
    dsimp only
    rw [skipWs_cons_not _ _ (by decide)]
    dsimp only
    rw [if_pos rfl]
    rfl
  | (k, v) :: g :: gs, _, pre, hpre, f, rest, hf => by
    have hv1 : 1 ≤ (dumpsChars v).length := dumpsChars_length_pos v
    have hshape : dumpsFields ((k, v) :: g :: gs)
        = strLitChars k ++ ':' :: ' ' :: dumpsChars v
            ++ ',' :: ' ' :: dumpsFields (g :: gs) := rfl
    have hstr : strLitChars k = '"' :: (escapeList k.toList ++ ['"']) := rfl
    have hlen : (dumpsFields ((k, v) :: g :: gs)).length
        = (escapeList k.toList).length + 2 + 2 + (dumpsChars v).length
            + 2 + (dumpsFields (g :: gs)).length := by
      rw [hshape, hstr]
      simp
      omega
    obtain ⟨f', rfl⟩ : ∃ f', f = f' + 1 := ⟨f - 1, by omega⟩
    have hinput : dumpsFields ((k, v) :: g :: gs) ++ rbrace :: rest
        = '"' :: (escapeList k.toList
            ++ '"' :: (':' :: ' ' :: (dumpsChars v
                ++ ',' :: ' ' :: (dumpsFields (g :: gs) ++ rbrace :: rest)))) := by
      rw [hshape, hstr]
      simp
    rw [parseMembers_ws pre hpre, hinput]
    unfold parseMembers
    rw [skipWs_cons_not _ _ (by decide)]
    dsimp only
    rw [if_pos rfl]
    rw [parseStrBody_escape k.toList
        (':' :: ' ' :: (dumpsChars v ++ ',' :: ' ' :: (dumpsFields (g :: gs) ++ rbrace :: rest)))]
    dsimp only
    rw [skipWs_cons_not _ _ (by decide)]
    dsimp only
    rw [if_pos rfl]
    rw [show (' ' :: (dumpsChars v ++ ',' :: ' ' :: (dumpsFields (g :: gs) ++ rbrace :: rest)))
          = [' '] ++ (dumpsChars v ++ ',' :: ' ' :: (dumpsFields (g :: gs) ++ rbrace :: rest))
          from rfl,
        parseVal_ws [' '] ws_singleton_space,
        parseVal_dumps v f' (',' :: ' ' :: (dumpsFields (g :: gs) ++ rbrace :: rest))
          (delimOk_comma _) (by omega)]
    dsimp only
    rw [skipWs_cons_not _ _ (by decide)]
    dsimp only
    rw [if_neg (by decide : ¬(',' : Char) = rbrace), if_pos rfl]
    rw [show (' ' :: (dumpsFields (g :: gs) ++ rbrace :: rest))
          = [' '] ++ (dumpsFields (g :: gs) ++ rbrace :: rest) from rfl]
    rw [parseMembers_dumps (g :: gs) (by simp) [' '] ws_singleton_space f' rest (by omega)]
    rfl

end

/-- `json.loads` inverts `json.dumps` at the character level. -/
theorem loadsChars_dumpsChars (v : Json) : loadsChars (dumpsChars v) = some v := by
  have h : parseVal ((dumpsChars v).length + 1) (dumpsChars v ++ []) = some (v, []) :=
    parseVal_dumps v ((dumpsChars v).length + 1) [] (Or.inl rfl) (by omega)
  rw [List.append_nil] at h
  rw [loadsChars, h]
  rfl

/-- C8: for every mapping X, parsing the JSON serialization of X returns X:
`extract_json_from_response (json.dumps X) = X`, the round trip landing in
the parser's direct-parse step. -/
theorem response_parser_roundtrip (fields : Obj) :
    extract_json_from_response (dumps (Json.obj fields)) = Except.ok (Json.obj fields) := by
  have h : loadsJson (dumps (Json.obj fields)) = some (Json.obj fields) :=
    loadsChars_dumpsChars (Json.obj fields)
  rw [extract_json_from_response, h]

end OcrPipeline
